import Mathlib

/-!
# vkt renderer: chunk-mesh build/upload handoff

A shallow embedding of `src/render.cpp`:

* the chunk-mesh slot pool `cmeshes`, the worker `thread_build_cmeshes` and the
  per-frame dispatcher `tick_send_cmeshes`, both as whole passes (functions on the
  pool) and statement by statement (a step function per thread, interleaved);
* the fixed-capacity registries `render_addmesh` and `render_add_light`.

The test of line 97 in `draw_cmeshes` is computed in binary32 (`glm::length` of a float
vector) and is not embedded here.
-/

namespace Vkt

/-! ## Data model -/

/-- A `vec` (glm 3-vector), with exact rational components. -/
structure vec where
  x : ℚ
  y : ℚ
  z : ℚ
  deriving DecidableEq

/-- A `vec4` (glm 4-vector). -/
structure vec4 where
  x : ℚ
  y : ℚ
  z : ℚ
  w : ℚ
  deriving DecidableEq

/-- The part of `chunk_t` (region.h) that render.cpp touches: the grid position `pos`
and the flag `update`; `voxels` stands for the voxel content that the mesh builder reads. -/
structure chunk_t where
  pos : vec
  update : Bool
  voxels : List Nat
  deriving DecidableEq

/-- A chunk-mesh slot `cmesh_t`. The C field `chunk` is a pointer; `render_attach_cmeshes`
binds slot number `mesh` to its own chunk, so the chunk is stored in the slot.
`verts` is the CPU-side staging geometry, `gpu` the content of the buffer behind `vao`,
`vertcount` the vertex count used by `glDrawArrays`. -/
structure cmesh_t where
  chunk : chunk_t
  needsend : Bool
  verts : List Nat
  vao : Nat
  gpu : List Nat
  vertcount : Nat
  deriving DecidableEq

/-- Ghost record of one call to a collaborator of render.cpp on slot `i`. -/
inductive Call where
  | build (i : Nat)
  | send (i : Nat)
  deriving DecidableEq

/-- The shared memory of the handoff: `static bool thread_active`, the array `cmeshes`
(its length is `CMESH_COUNT`), and the ghost list of collaborator calls in program order
(no statement reads it). -/
structure Pool where
  thread_active : Bool
  cmeshes : List cmesh_t
  calls : List Call
  deriving DecidableEq

/-- Apply `f` to `cmeshes[i]` in place; nothing happens when `i` is out of range. -/
def at_slot (f : cmesh_t → cmesh_t) (i : Nat) (cms : List cmesh_t) : List cmesh_t :=
  match cms[i]? with
  | some m => cms.set i (f m)
  | none => cms

/-- Modelled from the spec: the body of `cmesh_build` (declared in cmesh.h) is not in
src. Spec §2: "pure function that reads chunk voxel data and produces vertex geometry into
a slot's staging storage". `mesher` is that pure function. -/
def cmesh_build (mesher : List Nat → List Nat) (m : cmesh_t) : cmesh_t :=
  { m with verts := mesher m.chunk.voxels }

/-- Modelled from the spec: the body of `cmesh_send` (declared in cmesh.h) is not in
src. Spec §4.3: "upload its staging geometry to the GPU-resident buffer, update its vertex
count". -/
def cmesh_send (m : cmesh_t) : cmesh_t :=
  { m with gpu := m.verts, vertcount := m.verts.length }

/-! ## The statements of the two functions, as pool transformers -/

/-- The test of line 122: `cmeshes[i].chunk->update == true && !cmeshes[i].needsend`. -/
def wants_build (m : cmesh_t) : Bool :=
  m.chunk.update == true && !m.needsend

/-- Line 123: `cmeshes[i].needsend = true;` -/
def stmt_claim (i : Nat) (p : Pool) : Pool :=
  { p with cmeshes := at_slot (fun m => { m with needsend := true }) i p.cmeshes }

/-- Line 124: `cmesh_build(&cmeshes[i]);` -/
def stmt_build (mesher : List Nat → List Nat) (i : Nat) (p : Pool) : Pool :=
  { p with cmeshes := at_slot (cmesh_build mesher) i p.cmeshes, calls := p.calls ++ [Call.build i] }

/-- Line 126: `cmeshes[i].chunk->update = false;` -/
def stmt_clear (i : Nat) (p : Pool) : Pool :=
  { p with cmeshes := at_slot (fun m => { m with chunk := { m.chunk with update := false } }) i p.cmeshes }

/-- Line 127: `thread_active = false;` -/
def stmt_disable (p : Pool) : Pool :=
  { p with thread_active := false }

/-- Line 142: `cmesh_send(&cmeshes[i]);` -/
def stmt_send (i : Nat) (p : Pool) : Pool :=
  { p with cmeshes := at_slot cmesh_send i p.cmeshes, calls := p.calls ++ [Call.send i] }

/-- Line 143: `cmeshes[i].needsend = false;` -/
def stmt_unready (i : Nat) (p : Pool) : Pool :=
  { p with cmeshes := at_slot (fun m => { m with needsend := false }) i p.cmeshes }

/-- Line 144: `thread_active = true;` -/
def stmt_enable (p : Pool) : Pool :=
  { p with thread_active := true }

/-- Modelled from the spec: world-mutation logic is outside render.cpp. Spec §3: a chunk
"carries a boolean dirty set by world-mutation logic whenever its voxel content changes".
The mutation stores new voxel content `v` in chunk `j` and sets its `update` flag. -/
def world_mutate (j : Nat) (v : List Nat) (p : Pool) : Pool :=
  { p with cmeshes := at_slot (fun m => { m with chunk := { m.chunk with update := true, voxels := v } }) j p.cmeshes }

/-! ## Whole passes -/

/-- The `for` loop of `thread_build_cmeshes` (lines 120-130) from index `i` on, with `n`
iterations left to try. The loop test `i < CMESH_COUNT` is the lookup `cmeshes[i]?`. -/
def build_scan (mesher : List Nat → List Nat) (p : Pool) : Nat → Nat → Pool
  | 0, _ => p
  | n + 1, i =>
    match p.cmeshes[i]? with
    | none => p
    | some m =>
      if wants_build m then
        stmt_disable (stmt_clear i (stmt_build mesher i (stmt_claim i p)))
      else
        build_scan mesher p n (i + 1)

/-- One pass of the body of the `while` loop of `thread_build_cmeshes` (lines 117-130). -/
def thread_build_pass (mesher : List Nat → List Nat) (p : Pool) : Pool :=
  if !p.thread_active then p
  else build_scan mesher p p.cmeshes.length 0

/-- The `for` loop of `tick_send_cmeshes` (lines 139-147) from index `i` on. -/
def send_scan (p : Pool) : Nat → Nat → Pool
  | 0, _ => p
  | n + 1, i =>
    match p.cmeshes[i]? with
    | none => p
    | some m =>
      if m.needsend == true then
        stmt_enable (stmt_unready i (stmt_send i p))
      else
        send_scan p n (i + 1)

/-- The function `tick_send_cmeshes` (lines 134-148). -/
def tick_send_cmeshes (p : Pool) : Pool :=
  if p.thread_active then p
  else send_scan p p.cmeshes.length 0

/-- One round of the handoff: a worker pass followed by a dispatcher tick. -/
def round (mesher : List Nat → List Nat) (p : Pool) : Pool :=
  tick_send_cmeshes (thread_build_pass mesher p)

/-- The first `k` rounds. -/
def rounds (mesher : List Nat → List Nat) : Nat → Pool → Pool
  | 0, p => p
  | k + 1, p => round mesher (rounds mesher k p)

/-- The pool right after `render_attach_cmeshes` has started the worker:
`thread_active` still has its initial value `true` and no collaborator was called. -/
def start_pool (cms : List cmesh_t) : Pool :=
  { thread_active := true, cmeshes := cms, calls := [] }

/-- States of the model whose atomic steps are a whole worker pass, a whole dispatcher
tick and a world mutation, started with `thread_active = true` and every `needsend = false`. -/
inductive PassReachable (mesher : List Nat → List Nat) : Pool → Prop where
  | start (cms : List cmesh_t) (h : ∀ m ∈ cms, m.needsend = false) :
      PassReachable mesher (start_pool cms)
  | worker {p : Pool} : PassReachable mesher p → PassReachable mesher (thread_build_pass mesher p)
  | dispatcher {p : Pool} : PassReachable mesher p → PassReachable mesher (tick_send_cmeshes p)
  | world {p : Pool} (j : Nat) (v : List Nat) :
      PassReachable mesher p → PassReachable mesher (world_mutate j v p)

/-! ## Statement-level interleaving -/

/-- Program counter of the worker thread: the statement of `thread_build_cmeshes` it
executes next. `loop` is the `while` test (line 115), `guard` the test of line 117,
`scan i` the loop test and `if` of lines 120-122 for index `i`, `claim i` line 123,
`build i` line 124, `clear i` line 126, `disable` line 127 followed by `break`, and
`done` is the thread after the `while` loop has ended. -/
inductive WorkerPC where
  | loop
  | guard
  | scan (i : Nat)
  | claim (i : Nat)
  | build (i : Nat)
  | clear (i : Nat)
  | disable
  | done
  deriving DecidableEq

/-- Program counter of the render thread with respect to `tick_send_cmeshes`: `idle` is
outside the function, about to call it and run the test of line 136, `scan i` the loop
test and `if` of lines 139-141, `send i` line 142, `unready i` line 143, `enable`
line 144 followed by `return`. -/
inductive DispatchPC where
  | idle
  | scan (i : Nat)
  | send (i : Nat)
  | unready (i : Nat)
  | enable
  deriving DecidableEq

/-- A state of the two-thread system. -/
structure Sys where
  pool : Pool
  wpc : WorkerPC
  dpc : DispatchPC
  deriving DecidableEq

/-- The worker executes its next statement. `closed` is what
`glfwWindowShouldClose(window)` answers if the statement is the `while` test. -/
def worker_step (mesher : List Nat → List Nat) (closed : Bool) (s : Sys) : Sys :=
  match s.wpc with
  | .loop => if closed then { s with wpc := .done } else { s with wpc := .guard }
  | .guard => if !s.pool.thread_active then { s with wpc := .loop } else { s with wpc := .scan 0 }
  | .scan i =>
    match s.pool.cmeshes[i]? with
    | none => { s with wpc := .loop }
    | some m => if wants_build m then { s with wpc := .claim i } else { s with wpc := .scan (i + 1) }
  | .claim i => { s with pool := stmt_claim i s.pool, wpc := .build i }
  | .build i => { s with pool := stmt_build mesher i s.pool, wpc := .clear i }
  | .clear i => { s with pool := stmt_clear i s.pool, wpc := .disable }
  | .disable => { s with pool := stmt_disable s.pool, wpc := .loop }
  | .done => s

/-- The render thread executes the next statement of `tick_send_cmeshes`. -/
def dispatcher_step (s : Sys) : Sys :=
  match s.dpc with
  | .idle => if s.pool.thread_active then s else { s with dpc := .scan 0 }
  | .scan i =>
    match s.pool.cmeshes[i]? with
    | none => { s with dpc := .idle }
    | some m => if m.needsend == true then { s with dpc := .send i } else { s with dpc := .scan (i + 1) }
  | .send i => { s with pool := stmt_send i s.pool, dpc := .unready i }
  | .unready i => { s with pool := stmt_unready i s.pool, dpc := .enable }
  | .enable => { s with pool := stmt_enable s.pool, dpc := .idle }

/-- One step of the interleaving: a worker statement, a dispatcher statement, or a world
mutation. -/
inductive Step (mesher : List Nat → List Nat) : Sys → Sys → Prop where
  | worker (closed : Bool) (s : Sys) : Step mesher s (worker_step mesher closed s)
  | dispatcher (s : Sys) : Step mesher s (dispatcher_step s)
  | world (j : Nat) (v : List Nat) (s : Sys) :
      Step mesher s { s with pool := world_mutate j v s.pool }

/-- Both threads at their first statement, `thread_active = true`, no call made yet. -/
def start_sys (cms : List cmesh_t) : Sys :=
  { pool := start_pool cms, wpc := .loop, dpc := .idle }

/-- States reachable by interleaving from a start with every `needsend = false`. -/
inductive Reachable (mesher : List Nat → List Nat) : Sys → Prop where
  | start (cms : List cmesh_t) (h : ∀ m ∈ cms, m.needsend = false) :
      Reachable mesher (start_sys cms)
  | step {s t : Sys} : Reachable mesher s → Step mesher s t → Reachable mesher t

/-- The worker is in its write window: past the claim of line 123 and not yet past
`thread_active = false` of line 127, so `cmesh_build` is about to run or has run in this pass. -/
def worker_in_build : WorkerPC → Bool
  | .build _ => true
  | .clear _ => true
  | .disable => true
  | _ => false

/-- The dispatcher is in its read window: `cmesh_send` is the next statement. -/
def dispatcher_in_send : DispatchPC → Bool
  | .send _ => true
  | _ => false

/-- No slot has `needsend` set. -/
def NoneReady (cms : List cmesh_t) : Prop :=
  ∀ (j : Nat) (m : cmesh_t), cms[j]? = some m → m.needsend = false

/-- Slot `i` exists and is the only slot with `needsend` set. -/
def OnlyReady (i : Nat) (cms : List cmesh_t) : Prop :=
  i < cms.length ∧ ∀ (j : Nat) (m : cmesh_t), cms[j]? = some m → (m.needsend = true ↔ j = i)

/-- What the worker's program counter says about the flags while `thread_active` is true. -/
def WorkerView (pc : WorkerPC) (cms : List cmesh_t) : Prop :=
  match pc with
  | .loop | .guard | .done | .scan _ => NoneReady cms
  | .claim i => NoneReady cms ∧ i < cms.length
  | .build i | .clear i => OnlyReady i cms
  | .disable => ∃ i, OnlyReady i cms

/-- What the dispatcher's program counter says about the flags while `thread_active` is false. -/
def DispatchView (pc : DispatchPC) (cms : List cmesh_t) : Prop :=
  match pc with
  | .idle => ∃ k, OnlyReady k cms
  | .scan i => ∃ k, i ≤ k ∧ OnlyReady k cms
  | .send i | .unready i => OnlyReady i cms
  | .enable => NoneReady cms

/-- The inductive invariant of the interleaving: `thread_active` is a token. While it is
true the dispatcher is idle and the worker's view holds; while it is false the worker is
at the top of its loop and the dispatcher's view holds. -/
def HandoffInv (s : Sys) : Prop :=
  (s.pool.thread_active = true → s.dpc = .idle ∧ WorkerView s.wpc s.pool.cmeshes) ∧
  (s.pool.thread_active = false →
    (s.wpc = .loop ∨ s.wpc = .guard ∨ s.wpc = .done) ∧ DispatchView s.dpc s.pool.cmeshes)

/-- The invariant of the whole-pass model: `thread_active` is true with no slot ready, or
false with exactly one slot ready. -/
def PassInv (p : Pool) : Prop :=
  (p.thread_active = true → NoneReady p.cmeshes) ∧
  (p.thread_active = false → ∃ i, OnlyReady i p.cmeshes)

/-- While the worker is between its test of slot `i` and its clear of line 126, the
chunk of slot `i` still has `update == true`. -/
def DirtyHeld (s : Sys) : Prop :=
  match s.wpc with
  | .claim i | .build i | .clear i =>
    ∃ m : cmesh_t, s.pool.cmeshes[i]? = some m ∧ m.chunk.update = true
  | _ => True

/-- The collaborator calls made by the first `k` rounds of a full cycle, in order. -/
def cycle_calls : Nat → List Call
  | 0 => []
  | k + 1 => cycle_calls k ++ [Call.build k, Call.send k]

/-- A slot after its round of a full cycle: built from its voxels, uploaded, flags clear. -/
def cycled (mesher : List Nat → List Nat) (m : cmesh_t) : cmesh_t :=
  { chunk := { pos := m.chunk.pos, update := false, voxels := m.chunk.voxels },
    needsend := false, verts := mesher m.chunk.voxels, vao := m.vao,
    gpu := mesher m.chunk.voxels, vertcount := (mesher m.chunk.voxels).length }

/-! ## The mesh and light registries -/

/-- The constant `MAX_MESHES` of line 18. -/
def MAX_MESHES : Nat := 20

/-- The constant `MAX_LIGHTS` of line 21. -/
def MAX_LIGHTS : Nat := 10

/-- The fields of `mesh_t` (mesh.h) that render.cpp reads. -/
structure mesh_t where
  drawflags : Nat
  vao : Nat
  shader : Nat
  color : vec4
  customAttrib : Int
  primtype : Nat
  vertcount : Nat
  deriving DecidableEq

/-- A `light_t` (torch.h): render.cpp writes its `pos`; `rest` is whatever else the
record holds. -/
structure light_t where
  pos : vec4
  rest : List ℚ
  deriving DecidableEq

/-- The file-scope registries: `meshes`, `mesh_count`, `lights`, `light_count`. -/
structure Registry where
  meshes : List mesh_t
  mesh_count : Nat
  lights : List light_t
  light_count : Nat
  deriving DecidableEq

/-- The function `render_addmesh` (lines 45-53). The result `some k` is the pointer
`&meshes[k]`, `none` is `NULL`. -/
def render_addmesh (r : Registry) : Option Nat × Registry :=
  if r.mesh_count ≥ MAX_MESHES then
    (none, r)
  else
    let r1 := { r with mesh_count := r.mesh_count + 1 }
    (some (r1.mesh_count - 1), r1)

/-- Store `v` in `lights[i].pos`. -/
def set_light_pos (i : Nat) (v : vec4) (ls : List light_t) : List light_t :=
  match ls[i]? with
  | some l => ls.set i { l with pos := v }
  | none => ls

/-- The function `render_add_light` (lines 35-43); `vec_to_vec4` is the conversion it
calls, which is not in src. The result `some k` is the pointer `&lights[k]`. -/
def render_add_light (vec_to_vec4 : vec → vec4) (pos : vec) (r : Registry) :
    Option Nat × Registry :=
  if r.light_count ≥ MAX_LIGHTS then
    (none, r)
  else
    let r1 := { r with lights := set_light_pos r.light_count (vec_to_vec4 pos) r.lights }
    let r2 := { r1 with light_count := r1.light_count + 1 }
    (some (r2.light_count - 1), r2)

/-- The results and final registry of `n` successive calls of `render_addmesh`. -/
def addmesh_calls : Nat → Registry → List (Option Nat) × Registry
  | 0, r => ([], r)
  | n + 1, r =>
    let a := render_addmesh r
    let b := addmesh_calls n a.2
    (a.1 :: b.1, b.2)

/-- The results and final registry of successive calls of `render_add_light`, one per
position in the list. -/
def add_light_calls (vec_to_vec4 : vec → vec4) : List vec → Registry → List (Option Nat) × Registry
  | [], r => ([], r)
  | pos :: rest, r =>
    let a := render_add_light vec_to_vec4 pos r
    let b := add_light_calls vec_to_vec4 rest a.2
    (a.1 :: b.1, b.2)

/-! ## Concrete inputs used to exercise the theorems -/

/-- A dirty, never built slot at grid position `(64 k, 0, 0)` with two voxels. -/
def demo_slot (k : Nat) : cmesh_t :=
  { chunk := { pos := ⟨64 * k, 0, 0⟩, update := true, voxels := [k, k + 1] },
    needsend := false, verts := [], vao := k + 1, gpu := [], vertcount := 0 }

/-- A two-slot pool, both chunks dirty. -/
def demo_cms : List cmesh_t := [demo_slot 0, demo_slot 1]

/-- A builder that emits three vertices per voxel. -/
def demo_mesher (v : List Nat) : List Nat := v ++ v ++ v

/-- The worker runs alone for `n` statements (window stays open). -/
def worker_runs (mesher : List Nat → List Nat) : Nat → Sys → Sys
  | 0, s => s
  | n + 1, s => worker_step mesher false (worker_runs mesher n s)

/-- The dispatcher runs alone for `n` statements. -/
def dispatcher_runs : Nat → Sys → Sys
  | 0, s => s
  | n + 1, s => dispatcher_step (dispatcher_runs n s)

/-- The demo system after four worker statements: slot 0 is claimed and `cmesh_build`
on it is the next statement. -/
def demo_building : Sys := worker_runs demo_mesher 4 (start_sys demo_cms)

/-- The demo system when a world mutation of chunk 0 lands right after `cmesh_build` on
slot 0 has run and before line 126, and the worker then finishes its pass. -/
def demo_overwritten : Sys :=
  worker_runs demo_mesher 2
    { worker_runs demo_mesher 5 (start_sys demo_cms) with
      pool := world_mutate 0 [7] (worker_runs demo_mesher 5 (start_sys demo_cms)).pool }

/-- The system `demo_overwritten` run on until nothing is left to do: the dispatcher
uploads slot 0 (5 statements), the worker skips slot 0 and builds slot 1 (8 statements),
the dispatcher uploads slot 1 (6 statements), and the worker scans the whole pool without
finding a slot (5 statements). -/
def demo_stale : Sys :=
  worker_runs demo_mesher 5
    (dispatcher_runs 6 (worker_runs demo_mesher 8 (dispatcher_runs 5 demo_overwritten)))

/-- The demo system when the world mutation of chunk 0 lands after the claim of slot 0
and before `cmesh_build` on it has run, and the worker then finishes its pass. -/
def demo_overwritten_early : Sys :=
  worker_runs demo_mesher 3
    { demo_building with pool := world_mutate 0 [7] demo_building.pool }

/-- A registry with full-size arrays and nothing registered. -/
def demo_registry : Registry :=
  { meshes := List.replicate 20 ⟨0, 0, 0, ⟨0, 0, 0, 0⟩, 0, 0, 0⟩, mesh_count := 0,
    lights := List.replicate 10 ⟨⟨0, 0, 0, 0⟩, []⟩, light_count := 0 }

/-- A conversion that appends `w = 1`. -/
def demo_vec_to_vec4 (v : vec) : vec4 := ⟨v.x, v.y, v.z, 1⟩

/-! ## Lemmas on slot updates -/

theorem getElem?_at_slot (f : cmesh_t → cmesh_t) (i j : Nat) (cms : List cmesh_t) :
    (at_slot f i cms)[j]? = if j = i then (cms[j]?).map f else cms[j]? := by
  unfold at_slot
  cases h : cms[i]? with
  | none =>
    by_cases hji : j = i
    · subst hji; simp [h]
    · simp [hji]
  | some m =>
    by_cases hji : j = i
    · subst hji
      have hlt : j < cms.length := (List.getElem?_eq_some.mp h).1
      simp [h, hlt]
    · have hij : i ≠ j := fun e => hji e.symm
      simp [hji, List.getElem?_set_ne hij]

theorem length_at_slot (f : cmesh_t → cmesh_t) (i : Nat) (cms : List cmesh_t) :
    (at_slot f i cms).length = cms.length := by
  unfold at_slot
  cases cms[i]? <;> simp

theorem at_slot_eq_set (f : cmesh_t → cmesh_t) (i : Nat) (cms : List cmesh_t) (m : cmesh_t)
    (h : cms[i]? = some m) : at_slot f i cms = cms.set i (f m) := by
  simp [at_slot, h]

theorem noneReady_at_slot (f : cmesh_t → cmesh_t) (i : Nat) (cms : List cmesh_t)
    (hf : ∀ m, (f m).needsend = m.needsend) (h : NoneReady cms) : NoneReady (at_slot f i cms) := by
  intro j m hj
  rw [getElem?_at_slot] at hj
  split at hj
  · cases hc : cms[j]? with
    | none => simp [hc] at hj
    | some m0 =>
      simp [hc] at hj
      subst hj
      rw [hf]
      exact h j m0 hc
  · exact h j m hj

theorem onlyReady_at_slot (f : cmesh_t → cmesh_t) (i k : Nat) (cms : List cmesh_t)
    (hf : ∀ m, (f m).needsend = m.needsend) (h : OnlyReady k cms) :
    OnlyReady k (at_slot f i cms) := by
  refine ⟨by rw [length_at_slot]; exact h.1, ?_⟩
  intro j m hj
  rw [getElem?_at_slot] at hj
  split at hj
  · cases hc : cms[j]? with
    | none => simp [hc] at hj
    | some m0 =>
      simp [hc] at hj
      subst hj
      rw [hf]
      exact h.2 j m0 hc
  · exact h.2 j m hj

theorem onlyReady_of_set_true (f : cmesh_t → cmesh_t) (i : Nat) (cms : List cmesh_t)
    (hf : ∀ m, (f m).needsend = true) (hi : i < cms.length) (h : NoneReady cms) :
    OnlyReady i (at_slot f i cms) := by
  refine ⟨by rw [length_at_slot]; exact hi, ?_⟩
  intro j m hj
  rw [getElem?_at_slot] at hj
  split at hj
  · next hji =>
    cases hc : cms[j]? with
    | none => simp [hc] at hj
    | some m0 =>
      simp [hc] at hj
      subst hj
      simp [hji, hf]
  · next hji =>
    have := h j m hj
    simp [this, hji]

theorem onlyReady_claim (i : Nat) (cms : List cmesh_t) (hi : i < cms.length)
    (h : NoneReady cms) :
    OnlyReady i (at_slot (fun m => { m with needsend := true }) i cms) :=
  onlyReady_of_set_true _ i cms (fun _ => rfl) hi h

theorem noneReady_of_set_false (f : cmesh_t → cmesh_t) (i : Nat) (cms : List cmesh_t)
    (hf : ∀ m, (f m).needsend = false) (h : OnlyReady i cms) :
    NoneReady (at_slot f i cms) := by
  intro j m hj
  rw [getElem?_at_slot] at hj
  split at hj
  · cases hc : cms[j]? with
    | none => simp [hc] at hj
    | some m0 =>
      simp [hc] at hj
      subst hj
      exact hf m0
  · next hji =>
    have := h.2 j m hj
    cases hm : m.needsend with
    | false => rfl
    | true => exact absurd (this.mp hm) hji

theorem noneReady_unready (i : Nat) (cms : List cmesh_t) (h : OnlyReady i cms) :
    NoneReady (at_slot (fun m => { m with needsend := false }) i cms) :=
  noneReady_of_set_false _ i cms (fun _ => rfl) h

/-! ## The handoff invariant -/

theorem handoffInv_start (cms : List cmesh_t) (h : ∀ m ∈ cms, m.needsend = false) :
    HandoffInv (start_sys cms) := by
  refine ⟨fun _ => ⟨rfl, ?_⟩, fun hf => ?_⟩
  · intro j m hj
    exact h m (List.getElem?_mem hj)
  · simp [start_sys, start_pool] at hf

theorem handoffInv_worker (mesher : List Nat → List Nat) (closed : Bool) (s : Sys)
    (h : HandoffInv s) : HandoffInv (worker_step mesher closed s) := by
  obtain ⟨pool, wpc, dpc⟩ := s
  obtain ⟨ta, cms, calls⟩ := pool
  obtain ⟨hT, hF⟩ := h
  cases ta with
  | false =>
    have hF := hF rfl
    simp only at hF
    obtain ⟨hw, hd⟩ := hF
    rcases hw with hw | hw | hw <;> subst hw
    · cases closed <;>
        exact ⟨fun c => by simp [worker_step] at c, fun _ => ⟨by simp [worker_step], by simpa [worker_step] using hd⟩⟩
    · exact ⟨fun c => by simp [worker_step] at c, fun _ => ⟨by simp [worker_step], by simpa [worker_step] using hd⟩⟩
    · exact ⟨fun c => by simp [worker_step] at c, fun _ => ⟨by simp [worker_step], by simpa [worker_step] using hd⟩⟩
  | true =>
    have hT := hT rfl
    simp only at hT
    obtain ⟨hd, hw⟩ := hT
    subst hd
    cases wpc with
    | loop =>
      cases closed <;>
        exact ⟨fun _ => ⟨by simp [worker_step], by simpa [worker_step, WorkerView] using hw⟩,
          fun c => by simp [worker_step] at c⟩
    | guard =>
      exact ⟨fun _ => ⟨by simp [worker_step], by simpa [worker_step, WorkerView] using hw⟩,
        fun c => by simp [worker_step] at c⟩
    | done =>
      exact ⟨fun _ => ⟨by simp [worker_step], by simpa [worker_step, WorkerView] using hw⟩,
        fun c => by simp [worker_step] at c⟩
    | scan i =>
      have hw : NoneReady cms := hw
      cases hc : cms[i]? with
      | none =>
        exact ⟨fun _ => ⟨by simp [worker_step, hc], by simpa [worker_step, hc, WorkerView] using hw⟩,
          fun c => by simp [worker_step, hc] at c⟩
      | some m =>
        have hlt : i < cms.length := (List.getElem?_eq_some.mp hc).1
        cases hb : wants_build m with
        | false =>
          exact ⟨fun _ => ⟨by simp [worker_step, hc, hb],
            by simpa [worker_step, hc, hb, WorkerView] using hw⟩,
            fun c => by simp [worker_step, hc, hb] at c⟩
        | true =>
          exact ⟨fun _ => ⟨by simp [worker_step, hc, hb],
            by simpa [worker_step, hc, hb, WorkerView] using ⟨hw, hlt⟩⟩,
            fun c => by simp [worker_step, hc, hb] at c⟩
    | claim i =>
      have hw : NoneReady cms ∧ i < cms.length := hw
      exact ⟨fun _ => ⟨by simp [worker_step, stmt_claim],
        by simpa [worker_step, stmt_claim, WorkerView] using onlyReady_claim i cms hw.2 hw.1⟩,
        fun c => by simp [worker_step, stmt_claim] at c⟩
    | build i =>
      have hw : OnlyReady i cms := hw
      exact ⟨fun _ => ⟨by simp [worker_step, stmt_build],
        by simpa [worker_step, stmt_build, WorkerView] using
          onlyReady_at_slot (cmesh_build mesher) i i cms (fun _ => rfl) hw⟩,
        fun c => by simp [worker_step, stmt_build] at c⟩
    | clear i =>
      have hw : OnlyReady i cms := hw
      exact ⟨fun _ => ⟨by simp [worker_step, stmt_clear],
        by simpa [worker_step, stmt_clear, WorkerView] using
          ⟨i, onlyReady_at_slot _ i i cms (fun _ => rfl) hw⟩⟩,
        fun c => by simp [worker_step, stmt_clear] at c⟩
    | disable =>
      have hw : ∃ i, OnlyReady i cms := hw
      exact ⟨fun c => by simp [worker_step, stmt_disable] at c,
        fun _ => ⟨by simp [worker_step], by simpa [worker_step, stmt_disable, DispatchView] using hw⟩⟩

theorem handoffInv_dispatcher (s : Sys) (h : HandoffInv s) : HandoffInv (dispatcher_step s) := by
  obtain ⟨pool, wpc, dpc⟩ := s
  obtain ⟨ta, cms, calls⟩ := pool
  obtain ⟨hT, hF⟩ := h
  cases ta with
  | true =>
    have hT := hT rfl
    simp only at hT
    obtain ⟨hd, hw⟩ := hT
    subst hd
    exact ⟨fun _ => ⟨by simp [dispatcher_step], by simpa [dispatcher_step] using hw⟩,
      fun c => by simp [dispatcher_step] at c⟩
  | false =>
    have hF := hF rfl
    simp only at hF
    obtain ⟨hw, hd⟩ := hF
    cases dpc with
    | idle =>
      have hd : ∃ k, OnlyReady k cms := hd
      obtain ⟨k, hk⟩ := hd
      exact ⟨fun c => by simp [dispatcher_step] at c,
        fun _ => ⟨by simpa [dispatcher_step] using hw,
          by simpa [dispatcher_step, DispatchView] using ⟨k, hk⟩⟩⟩
    | scan i =>
      have hd : ∃ k, i ≤ k ∧ OnlyReady k cms := hd
      obtain ⟨k, hik, hk⟩ := hd
      cases hc : cms[i]? with
      | none =>
        exact ⟨fun c => by simp [dispatcher_step, hc] at c,
          fun _ => ⟨by simpa [dispatcher_step, hc] using hw,
            by simpa [dispatcher_step, hc, DispatchView] using ⟨k, hk⟩⟩⟩
      | some m =>
        cases hn : m.needsend with
        | true =>
          have hki : i = k := (hk.2 i m hc).mp hn
          subst hki
          exact ⟨fun c => by simp [dispatcher_step, hc, hn] at c,
            fun _ => ⟨by simpa [dispatcher_step, hc, hn] using hw,
              by simpa [dispatcher_step, hc, hn, DispatchView] using hk⟩⟩
        | false =>
          have hne : i ≠ k := by
            intro e
            subst e
            have := (hk.2 i m hc).mpr rfl
            simp [hn] at this
          have hlt : i + 1 ≤ k := by omega
          exact ⟨fun c => by simp [dispatcher_step, hc, hn] at c,
            fun _ => ⟨by simpa [dispatcher_step, hc, hn] using hw,
              by simpa [dispatcher_step, hc, hn, DispatchView] using ⟨k, hlt, hk⟩⟩⟩
    | send i =>
      have hd : OnlyReady i cms := hd
      exact ⟨fun c => by simp [dispatcher_step, stmt_send] at c,
        fun _ => ⟨by simpa [dispatcher_step] using hw,
          by simpa [dispatcher_step, stmt_send, DispatchView] using
            onlyReady_at_slot cmesh_send i i cms (fun _ => rfl) hd⟩⟩
    | unready i =>
      have hd : OnlyReady i cms := hd
      exact ⟨fun c => by simp [dispatcher_step, stmt_unready] at c,
        fun _ => ⟨by simpa [dispatcher_step] using hw,
          by simpa [dispatcher_step, stmt_unready, DispatchView] using noneReady_unready i cms hd⟩⟩
    | enable =>
      have hd : NoneReady cms := hd
      refine ⟨fun _ => ⟨by simp [dispatcher_step], ?_⟩, fun c => by simp [dispatcher_step, stmt_enable] at c⟩
      rcases hw with hw | hw | hw <;> subst hw <;>
        simpa [dispatcher_step, stmt_enable, WorkerView] using hd

theorem workerView_at_slot (f : cmesh_t → cmesh_t) (j : Nat) (pc : WorkerPC) (cms : List cmesh_t)
    (hf : ∀ m, (f m).needsend = m.needsend) (h : WorkerView pc cms) :
    WorkerView pc (at_slot f j cms) := by
  cases pc with
  | loop => exact noneReady_at_slot f j cms hf h
  | guard => exact noneReady_at_slot f j cms hf h
  | done => exact noneReady_at_slot f j cms hf h
  | scan i => exact noneReady_at_slot f j cms hf h
  | claim i =>
    have h : NoneReady cms ∧ i < cms.length := h
    exact ⟨noneReady_at_slot f j cms hf h.1, by rw [length_at_slot]; exact h.2⟩
  | build i => exact onlyReady_at_slot f j i cms hf h
  | clear i => exact onlyReady_at_slot f j i cms hf h
  | disable =>
    have h : ∃ i, OnlyReady i cms := h
    obtain ⟨i, hi⟩ := h
    exact ⟨i, onlyReady_at_slot f j i cms hf hi⟩

theorem dispatchView_at_slot (f : cmesh_t → cmesh_t) (j : Nat) (pc : DispatchPC)
    (cms : List cmesh_t) (hf : ∀ m, (f m).needsend = m.needsend) (h : DispatchView pc cms) :
    DispatchView pc (at_slot f j cms) := by
  cases pc with
  | idle =>
    have h : ∃ k, OnlyReady k cms := h
    obtain ⟨k, hk⟩ := h
    exact ⟨k, onlyReady_at_slot f j k cms hf hk⟩
  | scan i =>
    have h : ∃ k, i ≤ k ∧ OnlyReady k cms := h
    obtain ⟨k, hik, hk⟩ := h
    exact ⟨k, hik, onlyReady_at_slot f j k cms hf hk⟩
  | send i => exact onlyReady_at_slot f j i cms hf h
  | unready i => exact onlyReady_at_slot f j i cms hf h
  | enable => exact noneReady_at_slot f j cms hf h

theorem handoffInv_world (j : Nat) (v : List Nat) (s : Sys) (h : HandoffInv s) :
    HandoffInv { s with pool := world_mutate j v s.pool } := by
  obtain ⟨hT, hF⟩ := h
  refine ⟨fun ht => ?_, fun hf => ?_⟩
  · have := hT ht
    exact ⟨this.1, workerView_at_slot _ j s.wpc s.pool.cmeshes (fun _ => rfl) this.2⟩
  · have := hF hf
    exact ⟨this.1, dispatchView_at_slot _ j s.dpc s.pool.cmeshes (fun _ => rfl) this.2⟩

theorem handoffInv_of_reachable (mesher : List Nat → List Nat) (s : Sys)
    (h : Reachable mesher s) : HandoffInv s := by
  induction h with
  | start cms h0 => exact handoffInv_start cms h0
  | step _ hst ih =>
    cases hst with
    | worker closed _ => exact handoffInv_worker mesher closed _ ih
    | dispatcher _ => exact handoffInv_dispatcher _ ih
    | world j v _ => exact handoffInv_world j v _ ih

/-! ## Counting ready slots -/

theorem countP_needsend_of_noneReady (cms : List cmesh_t) (h : NoneReady cms) :
    cms.countP (fun m => m.needsend) = 0 := by
  rw [List.countP_eq_zero]
  intro m hm
  obtain ⟨n, hn⟩ := List.mem_iff_getElem?.mp hm
  simp [h n m hn]

theorem countP_needsend_of_onlyReady (cms : List cmesh_t) (i : Nat) (h : OnlyReady i cms) :
    cms.countP (fun m => m.needsend) = 1 := by
  induction cms generalizing i with
  | nil => exact absurd h.1 (by simp)
  | cons a l ih =>
    cases i with
    | zero =>
      have ha : a.needsend = true := (h.2 0 a (by simp)).mpr rfl
      have hl : NoneReady l := by
        intro j m hj
        have := h.2 (j + 1) m (by simpa using hj)
        cases hm : m.needsend with
        | false => rfl
        | true => exact absurd (this.mp hm) (by omega)
      simp [List.countP_cons, ha, countP_needsend_of_noneReady l hl]
    | succ k =>
      have ha : a.needsend = false := by
        have := h.2 0 a (by simp)
        cases hm : a.needsend with
        | false => rfl
        | true => exact absurd (this.mp hm) (by omega)
      have hl : OnlyReady k l := by
        refine ⟨by simpa using h.1, ?_⟩
        intro j m hj
        have := h.2 (j + 1) m (by simpa using hj)
        simpa using this
      simp [List.countP_cons, ha, ih k hl]

theorem reachable_worker_runs (mesher : List Nat → List Nat) (n : Nat) (s : Sys)
    (h : Reachable mesher s) : Reachable mesher (worker_runs mesher n s) := by
  induction n with
  | zero => exact h
  | succ n ih => exact Reachable.step ih (Step.worker false _)

theorem reachable_dispatcher_runs (mesher : List Nat → List Nat) (n : Nat) (s : Sys)
    (h : Reachable mesher s) : Reachable mesher (dispatcher_runs n s) := by
  induction n with
  | zero => exact h
  | succ n ih => exact Reachable.step ih (Step.dispatcher _)

theorem reachable_demo_start : Reachable demo_mesher (start_sys demo_cms) :=
  Reachable.start demo_cms (by decide)

theorem reachable_demo_building : Reachable demo_mesher demo_building :=
  reachable_worker_runs demo_mesher 4 _ reachable_demo_start

theorem workerView_cases (pc : WorkerPC) (cms : List cmesh_t) (h : WorkerView pc cms) :
    NoneReady cms ∨ ∃ i, OnlyReady i cms := by
  cases pc with
  | loop => exact Or.inl h
  | guard => exact Or.inl h
  | done => exact Or.inl h
  | scan i => exact Or.inl h
  | claim i => exact Or.inl (And.left h)
  | build i => exact Or.inr ⟨i, h⟩
  | clear i => exact Or.inr ⟨i, h⟩
  | disable => exact Or.inr h

theorem dispatchView_cases (pc : DispatchPC) (cms : List cmesh_t) (h : DispatchView pc cms) :
    NoneReady cms ∨ ∃ i, OnlyReady i cms := by
  cases pc with
  | idle => exact Or.inr h
  | scan i =>
    have h : ∃ k, i ≤ k ∧ OnlyReady k cms := h
    obtain ⟨k, _, hk⟩ := h
    exact Or.inr ⟨k, hk⟩
  | send i => exact Or.inr ⟨i, h⟩
  | unready i => exact Or.inr ⟨i, h⟩
  | enable => exact Or.inl h

theorem handoffInv_cases (s : Sys) (h : HandoffInv s) :
    NoneReady s.pool.cmeshes ∨ ∃ i, OnlyReady i s.pool.cmeshes := by
  cases ht : s.pool.thread_active with
  | true => exact workerView_cases _ _ (h.1 ht).2
  | false => exact dispatchView_cases _ _ (h.2 ht).2

/-! ## Claims on the statement-level interleaving -/

/-- C1. At-most-one-ready invariant: in every state reachable by interleaving the
statements of `thread_build_cmeshes`, the statements of `tick_send_cmeshes` and world
mutations, from `thread_active = true` and every `needsend = false`, the number of slots
with `needsend == true` is 0 or 1. -/
theorem at_most_one_ready (mesher : List Nat → List Nat) (s : Sys) (h : Reachable mesher s) :
    s.pool.cmeshes.countP (fun m => m.needsend) = 0 ∨
      s.pool.cmeshes.countP (fun m => m.needsend) = 1 := by
  rcases handoffInv_cases s (handoffInv_of_reachable mesher s h) with h0 | ⟨i, h1⟩
  · exact Or.inl (countP_needsend_of_noneReady _ h0)
  · exact Or.inr (countP_needsend_of_onlyReady _ i h1)

theorem at_most_one_ready_witness :
    Reachable demo_mesher demo_building ∧
      (demo_building.pool.cmeshes.countP (fun m => m.needsend) = 0 ∨
        demo_building.pool.cmeshes.countP (fun m => m.needsend) = 1) :=
  ⟨reachable_demo_building, at_most_one_ready demo_mesher demo_building reachable_demo_building⟩

/-- C2. No concurrent touch: no reachable state of the interleaving has the worker in its
write window (between claiming a slot and setting `thread_active = false`) while the
dispatcher is inside `cmesh_send`; in fact the dispatcher is then outside
`tick_send_cmeshes` altogether, or at its first test. -/
theorem no_concurrent_touch (mesher : List Nat → List Nat) (s : Sys) (h : Reachable mesher s) :
    ¬ (worker_in_build s.wpc = true ∧ dispatcher_in_send s.dpc = true) ∧
      (worker_in_build s.wpc = true → s.dpc = .idle) := by
  have hinv := handoffInv_of_reachable mesher s h
  have key : worker_in_build s.wpc = true → s.dpc = .idle := by
    intro hw
    cases ht : s.pool.thread_active with
    | true => exact (hinv.1 ht).1
    | false =>
      rcases (hinv.2 ht).1 with e | e | e <;> rw [e] at hw <;> simp [worker_in_build] at hw
  refine ⟨?_, key⟩
  rintro ⟨hw, hd⟩
  rw [key hw] at hd
  simp [dispatcher_in_send] at hd

theorem no_concurrent_touch_witness :
    Reachable demo_mesher demo_building ∧ worker_in_build demo_building.wpc = true ∧
      demo_building.dpc = .idle :=
  ⟨reachable_demo_building, by decide,
    (no_concurrent_touch demo_mesher demo_building reachable_demo_building).2 (by decide)⟩

/-- C3 as stated fails: the demo system reaches a state in which `cmesh_build` on slot 0 is
the next worker statement while slot 0 already has `needsend == true`. -/
theorem staging_written_while_ready :
    Reachable demo_mesher demo_building ∧ demo_building.wpc = .build 0 ∧
      (demo_building.pool.cmeshes[0]?).map (fun m => m.needsend) = some true ∧
      ¬ (∀ (i : Nat) (m : cmesh_t), demo_building.pool.cmeshes[i]? = some m →
          (demo_building.wpc = .build i → m.needsend = false) ∧
          (demo_building.dpc = .send i → m.needsend = true)) := by
  refine ⟨reachable_demo_building, by decide, by decide, ?_⟩
  intro hall
  have := (hall 0 { demo_slot 0 with needsend := true } rfl).1 rfl
  simp at this

/-- C3, amended. In every reachable state: when `cmesh_build` on slot `i` is the next worker
statement, slot `i` exists, its `needsend` is already true, `thread_active` is true and the
dispatcher is idle; the claim itself (line 123) happens only on a slot whose `needsend` is
false; and when `cmesh_send` on slot `i` is the next dispatcher statement, slot `i` exists,
its `needsend` is true and `thread_active` is false. -/
theorem staging_discipline (mesher : List Nat → List Nat) (s : Sys) (h : Reachable mesher s)
    (i : Nat) :
    (s.wpc = .build i → ∃ m, s.pool.cmeshes[i]? = some m ∧ m.needsend = true ∧
        s.pool.thread_active = true ∧ s.dpc = .idle) ∧
    (s.wpc = .claim i → ∃ m, s.pool.cmeshes[i]? = some m ∧ m.needsend = false) ∧
    (s.dpc = .send i → ∃ m, s.pool.cmeshes[i]? = some m ∧ m.needsend = true ∧
        s.pool.thread_active = false) := by
  have hinv := handoffInv_of_reachable mesher s h
  refine ⟨fun hw => ?_, fun hw => ?_, fun hd => ?_⟩
  · cases ht : s.pool.thread_active with
    | false => rcases (hinv.2 ht).1 with e | e | e <;> rw [e] at hw <;> cases hw
    | true =>
      obtain ⟨hd, hv⟩ := hinv.1 ht
      rw [hw] at hv
      have hv : OnlyReady i s.pool.cmeshes := hv
      have hlt : i < s.pool.cmeshes.length := hv.1
      refine ⟨s.pool.cmeshes[i], List.getElem?_eq_getElem hlt, ?_, rfl, hd⟩
      exact (hv.2 i _ (List.getElem?_eq_getElem hlt)).mpr rfl
  · cases ht : s.pool.thread_active with
    | false => rcases (hinv.2 ht).1 with e | e | e <;> rw [e] at hw <;> cases hw
    | true =>
      obtain ⟨_, hv⟩ := hinv.1 ht
      rw [hw] at hv
      have hv : NoneReady s.pool.cmeshes ∧ i < s.pool.cmeshes.length := hv
      have hlt : i < s.pool.cmeshes.length := hv.2
      exact ⟨s.pool.cmeshes[i], List.getElem?_eq_getElem hlt,
        hv.1 i _ (List.getElem?_eq_getElem hlt)⟩
  · cases ht : s.pool.thread_active with
    | true =>
      have := (hinv.1 ht).1
      rw [this] at hd
      cases hd
    | false =>
      have hv := (hinv.2 ht).2
      rw [hd] at hv
      have hv : OnlyReady i s.pool.cmeshes := hv
      have hlt : i < s.pool.cmeshes.length := hv.1
      exact ⟨s.pool.cmeshes[i], List.getElem?_eq_getElem hlt,
        (hv.2 i _ (List.getElem?_eq_getElem hlt)).mpr rfl, rfl⟩

theorem staging_discipline_witness :
    Reachable demo_mesher demo_building ∧ demo_building.wpc = .build 0 ∧
      ∃ m, demo_building.pool.cmeshes[0]? = some m ∧ m.needsend = true ∧
        demo_building.pool.thread_active = true ∧ demo_building.dpc = .idle :=
  ⟨reachable_demo_building, by decide,
    (staging_discipline demo_mesher demo_building reachable_demo_building 0).1 (by decide)⟩

/-! ## Whole passes: what a scan does -/

theorem worker_effect (mesher : List Nat → List Nat) (k : Nat) (p : Pool) (m : cmesh_t)
    (h : p.cmeshes[k]? = some m) :
    stmt_disable (stmt_clear k (stmt_build mesher k (stmt_claim k p))) =
      { thread_active := false,
        cmeshes := p.cmeshes.set k
          { m with chunk := { m.chunk with update := false }, needsend := true,
                   verts := mesher m.chunk.voxels },
        calls := p.calls ++ [Call.build k] } := by
  have hlt : k < p.cmeshes.length := (List.getElem?_eq_some.mp h).1
  simp [stmt_disable, stmt_clear, stmt_build, stmt_claim, at_slot, h, hlt, cmesh_build]

theorem dispatcher_effect (k : Nat) (p : Pool) (m : cmesh_t) (h : p.cmeshes[k]? = some m) :
    stmt_enable (stmt_unready k (stmt_send k p)) =
      { thread_active := true,
        cmeshes := p.cmeshes.set k
          { m with needsend := false, gpu := m.verts, vertcount := m.verts.length },
        calls := p.calls ++ [Call.send k] } := by
  have hlt : k < p.cmeshes.length := (List.getElem?_eq_some.mp h).1
  simp [stmt_enable, stmt_unready, stmt_send, at_slot, h, hlt, cmesh_send]

theorem build_scan_none (mesher : List Nat → List Nat) (p : Pool) (n i : Nat)
    (h : ∀ (j : Nat) (m : cmesh_t), i ≤ j → p.cmeshes[j]? = some m → wants_build m = false) :
    build_scan mesher p n i = p := by
  induction n generalizing i with
  | zero => rfl
  | succ n ih =>
    unfold build_scan
    cases hc : p.cmeshes[i]? with
    | none => rfl
    | some m =>
      simp only [h i m (Nat.le_refl i) hc]
      exact ih (i + 1) (fun j mj hj => h j mj (by omega))

theorem build_scan_found (mesher : List Nat → List Nat) (p : Pool) (n i k : Nat) (m : cmesh_t)
    (hik : i ≤ k) (hkn : k < i + n) (hk : p.cmeshes[k]? = some m) (hm : wants_build m = true)
    (h : ∀ (j : Nat) (mj : cmesh_t), i ≤ j → j < k → p.cmeshes[j]? = some mj →
      wants_build mj = false) :
    build_scan mesher p n i = stmt_disable (stmt_clear k (stmt_build mesher k (stmt_claim k p))) := by
  induction n generalizing i with
  | zero => omega
  | succ n ih =>
    unfold build_scan
    by_cases hik2 : i = k
    · subst hik2
      simp [hk, hm]
    · have hlt : i < k := by omega
      have hil : i < p.cmeshes.length := by
        have := (List.getElem?_eq_some.mp hk).1
        omega
      have hc : p.cmeshes[i]? = some p.cmeshes[i] := List.getElem?_eq_getElem hil
      simp only [hc, h i _ (Nat.le_refl i) hlt hc]
      exact ih (i + 1) (by omega) (by omega) (fun j mj h1 h2 => h j mj (by omega) h2)

theorem send_scan_none (p : Pool) (n i : Nat)
    (h : ∀ (j : Nat) (m : cmesh_t), i ≤ j → p.cmeshes[j]? = some m → m.needsend = false) :
    send_scan p n i = p := by
  induction n generalizing i with
  | zero => rfl
  | succ n ih =>
    unfold send_scan
    cases hc : p.cmeshes[i]? with
    | none => rfl
    | some m =>
      simp only [h i m (Nat.le_refl i) hc]
      exact ih (i + 1) (fun j mj hj => h j mj (by omega))

theorem send_scan_found (p : Pool) (n i k : Nat) (m : cmesh_t)
    (hik : i ≤ k) (hkn : k < i + n) (hk : p.cmeshes[k]? = some m) (hm : m.needsend = true)
    (h : ∀ (j : Nat) (mj : cmesh_t), i ≤ j → j < k → p.cmeshes[j]? = some mj →
      mj.needsend = false) :
    send_scan p n i = stmt_enable (stmt_unready k (stmt_send k p)) := by
  induction n generalizing i with
  | zero => omega
  | succ n ih =>
    unfold send_scan
    by_cases hik2 : i = k
    · subst hik2
      simp [hk, hm]
    · have hlt : i < k := by omega
      have hil : i < p.cmeshes.length := by
        have := (List.getElem?_eq_some.mp hk).1
        omega
      have hc : p.cmeshes[i]? = some p.cmeshes[i] := List.getElem?_eq_getElem hil
      simp only [hc, h i _ (Nat.le_refl i) hlt hc]
      exact ih (i + 1) (by omega) (by omega) (fun j mj h1 h2 => h j mj (by omega) h2)

theorem thread_build_pass_found (mesher : List Nat → List Nat) (p : Pool) (k : Nat) (m : cmesh_t)
    (ht : p.thread_active = true) (hk : p.cmeshes[k]? = some m) (hm : wants_build m = true)
    (h : ∀ (j : Nat) (mj : cmesh_t), j < k → p.cmeshes[j]? = some mj → wants_build mj = false) :
    thread_build_pass mesher p =
      { thread_active := false,
        cmeshes := p.cmeshes.set k
          { m with chunk := { m.chunk with update := false }, needsend := true,
                   verts := mesher m.chunk.voxels },
        calls := p.calls ++ [Call.build k] } := by
  have hlt : k < p.cmeshes.length := (List.getElem?_eq_some.mp hk).1
  unfold thread_build_pass
  simp only [ht]
  rw [← worker_effect mesher k p m hk]
  exact build_scan_found mesher p _ 0 k m (Nat.zero_le k) (by omega) hk hm
    (fun j mj _ h2 h3 => h j mj h2 h3)

theorem tick_send_found (p : Pool) (k : Nat) (m : cmesh_t)
    (ht : p.thread_active = false) (hk : p.cmeshes[k]? = some m) (hm : m.needsend = true)
    (h : ∀ (j : Nat) (mj : cmesh_t), j < k → p.cmeshes[j]? = some mj → mj.needsend = false) :
    tick_send_cmeshes p =
      { thread_active := true,
        cmeshes := p.cmeshes.set k
          { m with needsend := false, gpu := m.verts, vertcount := m.verts.length },
        calls := p.calls ++ [Call.send k] } := by
  have hlt : k < p.cmeshes.length := (List.getElem?_eq_some.mp hk).1
  unfold tick_send_cmeshes
  simp only [ht]
  rw [← dispatcher_effect k p m hk]
  exact send_scan_found p _ 0 k m (Nat.zero_le k) (by omega) hk hm
    (fun j mj _ h2 h3 => h j mj h2 h3)

theorem wants_build_iff (m : cmesh_t) :
    wants_build m = true ↔ m.chunk.update = true ∧ m.needsend = false := by
  simp [wants_build]

theorem wants_build_false_iff (m : cmesh_t) :
    wants_build m = false ↔ ¬ (m.chunk.update = true ∧ m.needsend = false) := by
  rw [← wants_build_iff]
  simp

theorem thread_build_pass_cases (mesher : List Nat → List Nat) (p : Pool) :
    thread_build_pass mesher p = p ∨
      ∃ (k : Nat) (m : cmesh_t), p.thread_active = true ∧ p.cmeshes[k]? = some m ∧
        wants_build m = true ∧
        (∀ (j : Nat) (mj : cmesh_t), j < k → p.cmeshes[j]? = some mj → wants_build mj = false) ∧
        thread_build_pass mesher p =
          { thread_active := false,
            cmeshes := p.cmeshes.set k
              { m with chunk := { m.chunk with update := false }, needsend := true,
                       verts := mesher m.chunk.voxels },
            calls := p.calls ++ [Call.build k] } := by
  classical
  cases ht : p.thread_active with
  | false => exact Or.inl (by simp [thread_build_pass, ht])
  | true =>
    by_cases hex : ∃ k : Nat, ∃ m : cmesh_t, p.cmeshes[k]? = some m ∧ wants_build m = true
    · right
      have hk := Nat.find_spec hex
      obtain ⟨m, hm1, hm2⟩ := hk
      have hmin : ∀ (j : Nat) (mj : cmesh_t), j < Nat.find hex → p.cmeshes[j]? = some mj →
          wants_build mj = false := by
        intro j mj hj hmj
        have := Nat.find_min hex hj
        cases hw : wants_build mj with
        | false => rfl
        | true => exact absurd ⟨mj, hmj, hw⟩ this
      exact ⟨Nat.find hex, m, rfl, hm1, hm2, hmin,
        thread_build_pass_found mesher p _ m ht hm1 hm2 hmin⟩
    · left
      unfold thread_build_pass
      simp only [ht]
      apply build_scan_none
      intro j m _ hm
      cases hw : wants_build m with
      | false => rfl
      | true => exact absurd ⟨j, m, hm, hw⟩ hex

theorem tick_send_cases (p : Pool) :
    tick_send_cmeshes p = p ∨
      ∃ (k : Nat) (m : cmesh_t), p.thread_active = false ∧ p.cmeshes[k]? = some m ∧
        m.needsend = true ∧
        (∀ (j : Nat) (mj : cmesh_t), j < k → p.cmeshes[j]? = some mj → mj.needsend = false) ∧
        tick_send_cmeshes p =
          { thread_active := true,
            cmeshes := p.cmeshes.set k
              { m with needsend := false, gpu := m.verts, vertcount := m.verts.length },
            calls := p.calls ++ [Call.send k] } := by
  classical
  cases ht : p.thread_active with
  | true => exact Or.inl (by simp [tick_send_cmeshes, ht])
  | false =>
    by_cases hex : ∃ k : Nat, ∃ m : cmesh_t, p.cmeshes[k]? = some m ∧ m.needsend = true
    · right
      have hk := Nat.find_spec hex
      obtain ⟨m, hm1, hm2⟩ := hk
      have hmin : ∀ (j : Nat) (mj : cmesh_t), j < Nat.find hex → p.cmeshes[j]? = some mj →
          mj.needsend = false := by
        intro j mj hj hmj
        have := Nat.find_min hex hj
        cases hw : mj.needsend with
        | false => rfl
        | true => exact absurd ⟨mj, hmj, hw⟩ this
      exact ⟨Nat.find hex, m, rfl, hm1, hm2, hmin, tick_send_found p _ m ht hm1 hm2 hmin⟩
    · left
      unfold tick_send_cmeshes
      simp only [ht]
      apply send_scan_none
      intro j m _ hm
      cases hw : m.needsend with
      | false => rfl
      | true => exact absurd ⟨j, m, hm, hw⟩ hex

/-! ## A whole pass is the statement-level run of one thread alone -/

theorem worker_runs_succ (mesher : List Nat → List Nat) (n : Nat) (s : Sys) :
    worker_runs mesher (n + 1) s = worker_runs mesher n (worker_step mesher false s) := by
  induction n with
  | zero => rfl
  | succ n ih =>
    show worker_step mesher false (worker_runs mesher (n + 1) s) = _
    rw [ih]
    rfl

theorem dispatcher_runs_succ (n : Nat) (s : Sys) :
    dispatcher_runs (n + 1) s = dispatcher_runs n (dispatcher_step s) := by
  induction n with
  | zero => rfl
  | succ n ih =>
    show dispatcher_step (dispatcher_runs (n + 1) s) = _
    rw [ih]
    rfl

theorem worker_scan_refines (mesher : List Nat → List Nat) (fuel i : Nat) (s : Sys)
    (hw : s.wpc = .scan i) (hf : s.pool.cmeshes.length ≤ i + fuel) :
    ∃ n : Nat, worker_runs mesher n s =
      { s with pool := build_scan mesher s.pool fuel i, wpc := .loop } := by
  induction fuel generalizing i s with
  | zero =>
    have hnone : s.pool.cmeshes[i]? = none := List.getElem?_eq_none (by omega)
    refine ⟨1, ?_⟩
    show worker_step mesher false s = _
    simp [worker_step, hw, hnone, build_scan]
  | succ fuel ih =>
    cases hc : s.pool.cmeshes[i]? with
    | none =>
      refine ⟨1, ?_⟩
      show worker_step mesher false s = _
      simp [worker_step, hw, hc, build_scan]
    | some m =>
      cases hb : wants_build m with
      | true =>
        refine ⟨5, ?_⟩
        simp [worker_runs, worker_step, hw, hc, hb, build_scan]
      | false =>
        have hstep : worker_step mesher false s = { s with wpc := .scan (i + 1) } := by
          simp [worker_step, hw, hc, hb]
        obtain ⟨n, hn⟩ := ih (i + 1) { s with wpc := .scan (i + 1) } rfl (by simpa using by omega)
        refine ⟨n + 1, ?_⟩
        rw [worker_runs_succ, hstep, hn]
        simp [build_scan, hc, hb]

theorem worker_pass_refines (mesher : List Nat → List Nat) (s : Sys) (hw : s.wpc = .guard) :
    ∃ n : Nat, worker_runs mesher n s =
      { s with pool := thread_build_pass mesher s.pool, wpc := .loop } := by
  cases ht : s.pool.thread_active with
  | false =>
    refine ⟨1, ?_⟩
    show worker_step mesher false s = _
    simp [worker_step, hw, ht, thread_build_pass]
  | true =>
    have hstep : worker_step mesher false s = { s with wpc := .scan 0 } := by
      simp [worker_step, hw, ht]
    obtain ⟨n, hn⟩ := worker_scan_refines mesher s.pool.cmeshes.length 0
      { s with wpc := .scan 0 } rfl (by simp)
    refine ⟨n + 1, ?_⟩
    rw [worker_runs_succ, hstep, hn]
    simp [thread_build_pass, ht]

theorem dispatcher_scan_refines (fuel i : Nat) (s : Sys)
    (hd : s.dpc = .scan i) (hf : s.pool.cmeshes.length ≤ i + fuel) :
    ∃ n : Nat, dispatcher_runs n s = { s with pool := send_scan s.pool fuel i, dpc := .idle } := by
  induction fuel generalizing i s with
  | zero =>
    have hnone : s.pool.cmeshes[i]? = none := List.getElem?_eq_none (by omega)
    refine ⟨1, ?_⟩
    show dispatcher_step s = _
    simp [dispatcher_step, hd, hnone, send_scan]
  | succ fuel ih =>
    cases hc : s.pool.cmeshes[i]? with
    | none =>
      refine ⟨1, ?_⟩
      show dispatcher_step s = _
      simp [dispatcher_step, hd, hc, send_scan]
    | some m =>
      cases hb : m.needsend with
      | true =>
        refine ⟨4, ?_⟩
        simp [dispatcher_runs, dispatcher_step, hd, hc, hb, send_scan]
      | false =>
        have hstep : dispatcher_step s = { s with dpc := .scan (i + 1) } := by
          simp [dispatcher_step, hd, hc, hb]
        obtain ⟨n, hn⟩ := ih (i + 1) { s with dpc := .scan (i + 1) } rfl (by simpa using by omega)
        refine ⟨n + 1, ?_⟩
        rw [dispatcher_runs_succ, hstep, hn]
        simp [send_scan, hc, hb]

theorem dispatcher_tick_refines (s : Sys) (hd : s.dpc = .idle) :
    ∃ n : Nat, dispatcher_runs n s = { s with pool := tick_send_cmeshes s.pool, dpc := .idle } := by
  cases ht : s.pool.thread_active with
  | true =>
    refine ⟨1, ?_⟩
    show dispatcher_step s = _
    obtain ⟨pool, wpc, dpc⟩ := s
    simp only at hd ht
    subst hd
    simp [dispatcher_step, ht, tick_send_cmeshes]
  | false =>
    have hstep : dispatcher_step s = { s with dpc := .scan 0 } := by
      simp [dispatcher_step, hd, ht]
    obtain ⟨n, hn⟩ := dispatcher_scan_refines s.pool.cmeshes.length 0
      { s with dpc := .scan 0 } rfl (by simp)
    refine ⟨n + 1, ?_⟩
    rw [dispatcher_runs_succ, hstep, hn]
    simp [tick_send_cmeshes, ht]

/-! ## Claims on whole passes -/

/-- C4. Worker pass postcondition and frame. One pass of the body of
`thread_build_cmeshes` (a) leaves the whole state unchanged when `thread_active` is false;
(b) leaves it unchanged when `thread_active` is true and no slot has `update == true` with
`needsend == false`; (c) otherwise, for the smallest index `i` with `update == true` and
`needsend == false`, ends with `thread_active == false`, slot `i` having `needsend == true`,
`update == false` and the freshly built staging geometry (its other fields as before), every
slot `j ≠ i` unchanged, the pool size unchanged and exactly one `cmesh_build` call, on slot
`i`; a further pass without re-enabling changes nothing. -/
theorem worker_pass_post (mesher : List Nat → List Nat) (p : Pool) :
    (p.thread_active = false → thread_build_pass mesher p = p) ∧
    (p.thread_active = true →
      (∀ (j : Nat) (m : cmesh_t), p.cmeshes[j]? = some m →
        ¬ (m.chunk.update = true ∧ m.needsend = false)) →
      thread_build_pass mesher p = p) ∧
    (∀ (i : Nat) (m : cmesh_t), p.thread_active = true → p.cmeshes[i]? = some m →
      m.chunk.update = true → m.needsend = false →
      (∀ (j : Nat) (mj : cmesh_t), j < i → p.cmeshes[j]? = some mj →
        ¬ (mj.chunk.update = true ∧ mj.needsend = false)) →
      (thread_build_pass mesher p).thread_active = false ∧
      (thread_build_pass mesher p).cmeshes[i]? =
        some { chunk := { pos := m.chunk.pos, update := false, voxels := m.chunk.voxels },
               needsend := true, verts := mesher m.chunk.voxels,
               vao := m.vao, gpu := m.gpu, vertcount := m.vertcount } ∧
      (∀ j : Nat, j ≠ i → (thread_build_pass mesher p).cmeshes[j]? = p.cmeshes[j]?) ∧
      (thread_build_pass mesher p).cmeshes.length = p.cmeshes.length ∧
      (thread_build_pass mesher p).calls = p.calls ++ [Call.build i] ∧
      thread_build_pass mesher (thread_build_pass mesher p) = thread_build_pass mesher p) := by
  refine ⟨fun ht => by simp [thread_build_pass, ht], fun ht hno => ?_, ?_⟩
  · unfold thread_build_pass
    simp only [ht]
    exact build_scan_none mesher p _ 0
      (fun j m _ hm => (wants_build_false_iff m).mpr (hno j m hm))
  · intro i m ht hi hu hn hmin
    have hlt : i < p.cmeshes.length := (List.getElem?_eq_some.mp hi).1
    have hfound := thread_build_pass_found mesher p i m ht hi
      ((wants_build_iff m).mpr ⟨hu, hn⟩)
      (fun j mj hj hmj => (wants_build_false_iff mj).mpr (hmin j mj hj hmj))
    rw [hfound]
    refine ⟨rfl, by simp [hlt], fun j hj => ?_, by simp, rfl, ?_⟩
    · have hij : i ≠ j := fun e => hj e.symm
      simp [List.getElem?_set_ne hij]
    · simp [thread_build_pass]

theorem worker_pass_post_witness :
    thread_build_pass demo_mesher { thread_active := false, cmeshes := demo_cms, calls := [] } =
        { thread_active := false, cmeshes := demo_cms, calls := [] } ∧
    thread_build_pass demo_mesher (start_pool [cycled demo_mesher (demo_slot 0)]) =
        start_pool [cycled demo_mesher (demo_slot 0)] ∧
    (thread_build_pass demo_mesher (start_pool demo_cms)).thread_active = false ∧
    (thread_build_pass demo_mesher (start_pool demo_cms)).cmeshes[0]? =
        some { chunk := { pos := (demo_slot 0).chunk.pos, update := false, voxels := [0, 1] },
               needsend := true, verts := demo_mesher [0, 1],
               vao := 1, gpu := [], vertcount := 0 } ∧
    (thread_build_pass demo_mesher (start_pool demo_cms)).cmeshes[1]? = some (demo_slot 1) :=
  ⟨(worker_pass_post demo_mesher _).1 rfl,
   (worker_pass_post demo_mesher _).2.1 rfl (fun j m hj => by
      have hmem : m ∈ [cycled demo_mesher (demo_slot 0)] := List.getElem?_mem hj
      rw [List.mem_singleton.mp hmem]
      simp [cycled]),
   ((worker_pass_post demo_mesher (start_pool demo_cms)).2.2 0 (demo_slot 0) rfl rfl rfl rfl
      (by omega)).1,
   ((worker_pass_post demo_mesher (start_pool demo_cms)).2.2 0 (demo_slot 0) rfl rfl rfl rfl
      (by omega)).2.1,
   ((worker_pass_post demo_mesher (start_pool demo_cms)).2.2 0 (demo_slot 0) rfl rfl rfl rfl
      (by omega)).2.2.1 1 (by omega)⟩

/-- C5. Dispatcher tick postcondition and frame. `tick_send_cmeshes` (a) leaves the whole
state unchanged when `thread_active` is true; (b) leaves it unchanged when `thread_active`
is false and no slot has `needsend == true`; (c) otherwise, for the smallest index `i`
whose `needsend` is true, uploads slot `i` (its GPU content becomes the staging geometry and
its vertex count the staging count), sets its `needsend` to false and `thread_active` to
true, changes no other slot, and makes exactly one `cmesh_send` call; in every case no
chunk, no staging geometry and no `cmesh_build` call is added or changed. -/
theorem dispatcher_tick_post (p : Pool) :
    (p.thread_active = true → tick_send_cmeshes p = p) ∧
    (p.thread_active = false →
      (∀ (j : Nat) (m : cmesh_t), p.cmeshes[j]? = some m → m.needsend = false) →
      tick_send_cmeshes p = p) ∧
    (∀ (i : Nat) (m : cmesh_t), p.thread_active = false → p.cmeshes[i]? = some m →
      m.needsend = true →
      (∀ (j : Nat) (mj : cmesh_t), j < i → p.cmeshes[j]? = some mj → mj.needsend = false) →
      (tick_send_cmeshes p).thread_active = true ∧
      (tick_send_cmeshes p).cmeshes[i]? =
        some { chunk := m.chunk, needsend := false, verts := m.verts,
               vao := m.vao, gpu := m.verts, vertcount := m.verts.length } ∧
      (∀ j : Nat, j ≠ i → (tick_send_cmeshes p).cmeshes[j]? = p.cmeshes[j]?) ∧
      (tick_send_cmeshes p).calls = p.calls ++ [Call.send i]) ∧
    ((tick_send_cmeshes p).cmeshes.map (fun m => m.chunk) = p.cmeshes.map (fun m => m.chunk) ∧
      (tick_send_cmeshes p).cmeshes.map (fun m => m.verts) = p.cmeshes.map (fun m => m.verts) ∧
      ∀ k : Nat, Call.build k ∈ (tick_send_cmeshes p).calls → Call.build k ∈ p.calls) := by
  refine ⟨fun ht => by simp [tick_send_cmeshes, ht], fun ht hno => ?_, ?_, ?_⟩
  · unfold tick_send_cmeshes
    simp only [ht]
    exact send_scan_none p _ 0 (fun j m _ hm => hno j m hm)
  · intro i m ht hi hn hmin
    have hlt : i < p.cmeshes.length := (List.getElem?_eq_some.mp hi).1
    rw [tick_send_found p i m ht hi hn hmin]
    refine ⟨rfl, by simp [hlt], fun j hj => ?_, rfl⟩
    have hij : i ≠ j := fun e => hj e.symm
    simp [List.getElem?_set_ne hij]
  · rcases tick_send_cases p with h | ⟨k, m, _, hk, _, _, h⟩
    · rw [h]
      exact ⟨rfl, rfl, fun _ hk => hk⟩
    · rw [h]
      have hlt : k < p.cmeshes.length := (List.getElem?_eq_some.mp hk).1
      have hm : p.cmeshes[k] = m := by
        have := List.getElem?_eq_getElem hlt
        rw [hk] at this
        exact (Option.some.inj this).symm
      refine ⟨?_, ?_, ?_⟩
      · apply List.ext_getElem? 
        intro j
        by_cases hj : k = j
        · subst hj
          simp [hlt, hm]
        · simp [List.getElem?_set_ne hj]
      · apply List.ext_getElem?
        intro j
        by_cases hj : k = j
        · subst hj
          simp [hlt, hm]
        · simp [List.getElem?_set_ne hj]
      · intro j hj
        simpa using hj

theorem dispatcher_tick_post_witness :
    tick_send_cmeshes (start_pool demo_cms) = start_pool demo_cms ∧
    tick_send_cmeshes { thread_active := false, cmeshes := demo_cms, calls := [] } =
      { thread_active := false, cmeshes := demo_cms, calls := [] } ∧
    (tick_send_cmeshes (thread_build_pass demo_mesher (start_pool demo_cms))).thread_active =
      true ∧
    (tick_send_cmeshes (thread_build_pass demo_mesher (start_pool demo_cms))).cmeshes[0]? =
      some { chunk := { pos := (demo_slot 0).chunk.pos, update := false, voxels := [0, 1] },
             needsend := false, verts := demo_mesher [0, 1], vao := 1,
             gpu := demo_mesher [0, 1], vertcount := 6 } ∧
    (tick_send_cmeshes (thread_build_pass demo_mesher (start_pool demo_cms))).calls =
      [Call.build 0, Call.send 0] :=
  ⟨(dispatcher_tick_post _).1 rfl,
   (dispatcher_tick_post _).2.1 rfl (fun j m hj => by
      have hmem : m ∈ demo_cms := List.getElem?_mem hj
      simp only [demo_cms, List.mem_cons, List.mem_singleton, List.not_mem_nil, or_false] at hmem
      rcases hmem with e | e <;> rw [e] <;> rfl),
   ((dispatcher_tick_post (thread_build_pass demo_mesher (start_pool demo_cms))).2.2.1 0
      _ rfl rfl rfl (by omega)).1,
   ((dispatcher_tick_post (thread_build_pass demo_mesher (start_pool demo_cms))).2.2.1 0
      _ rfl rfl rfl (by omega)).2.1,
   ((dispatcher_tick_post (thread_build_pass demo_mesher (start_pool demo_cms))).2.2.1 0
      _ rfl rfl rfl (by omega)).2.2.2⟩

/-! ## The whole-pass model -/

theorem passInv_worker (mesher : List Nat → List Nat) (p : Pool) (h : PassInv p) :
    PassInv (thread_build_pass mesher p) := by
  rcases thread_build_pass_cases mesher p with e | ⟨k, m, ht, hk, _, _, e⟩
  · rw [e]; exact h
  · rw [e]
    have hlt : k < p.cmeshes.length := (List.getElem?_eq_some.mp hk).1
    refine ⟨fun c => by simp at c, fun _ => ⟨k, ?_⟩⟩
    have := onlyReady_of_set_true
      (fun m => { m with chunk := { m.chunk with update := false }, needsend := true,
                         verts := mesher m.chunk.voxels }) k p.cmeshes (fun _ => rfl) hlt (h.1 ht)
    rw [at_slot_eq_set _ k p.cmeshes m hk] at this
    exact this

theorem passInv_dispatcher (p : Pool) (h : PassInv p) : PassInv (tick_send_cmeshes p) := by
  rcases tick_send_cases p with e | ⟨k, m, ht, hk, hn, _, e⟩
  · rw [e]; exact h
  · rw [e]
    obtain ⟨i, hi⟩ := h.2 ht
    have hki : k = i := (hi.2 k m hk).mp hn
    subst hki
    refine ⟨fun _ => ?_, fun c => by simp at c⟩
    have := noneReady_of_set_false
      (fun m => { m with needsend := false, gpu := m.verts, vertcount := m.verts.length })
      k p.cmeshes (fun _ => rfl) hi
    rw [at_slot_eq_set _ k p.cmeshes m hk] at this
    exact this

theorem passInv_world (j : Nat) (v : List Nat) (p : Pool) (h : PassInv p) :
    PassInv (world_mutate j v p) := by
  refine ⟨fun ht => noneReady_at_slot _ j p.cmeshes (fun _ => rfl) (h.1 ht), fun hf => ?_⟩
  obtain ⟨i, hi⟩ := h.2 hf
  exact ⟨i, onlyReady_at_slot _ j i p.cmeshes (fun _ => rfl) hi⟩

theorem passInv_of_reachable (mesher : List Nat → List Nat) (p : Pool)
    (h : PassReachable mesher p) : PassInv p := by
  induction h with
  | start cms h0 =>
    exact ⟨fun _ j m hj => h0 m (List.getElem?_mem hj), fun c => by simp [start_pool] at c⟩
  | worker _ ih => exact passInv_worker mesher _ ih
  | dispatcher _ ih => exact passInv_dispatcher _ ih
  | world j v _ ih => exact passInv_world j v _ ih

/-- C10. Enable flag mirrors the ready count. In the model whose atomic steps are one whole
worker pass, one whole dispatcher tick and a world mutation, started from
`thread_active = true` and every `needsend = false`, every reachable state has
`thread_active == false` iff exactly one slot has `needsend == true`, and
`thread_active == true` iff no slot has; so a tick taken while `thread_active` is false
uploads a slot and re-enables the worker, and while the worker may scan every slot has
`needsend == false`. -/
theorem enable_mirrors_ready (mesher : List Nat → List Nat) (p : Pool)
    (h : PassReachable mesher p) :
    (p.thread_active = false ↔ p.cmeshes.countP (fun m => m.needsend) = 1) ∧
    (p.thread_active = true ↔ p.cmeshes.countP (fun m => m.needsend) = 0) ∧
    (p.thread_active = false →
      (tick_send_cmeshes p).thread_active = true ∧
      ∃ i : Nat, i < p.cmeshes.length ∧ (tick_send_cmeshes p).calls = p.calls ++ [Call.send i]) ∧
    (p.thread_active = true →
      ∀ (j : Nat) (m : cmesh_t), p.cmeshes[j]? = some m → (!m.needsend) = true) := by
  have hinv := passInv_of_reachable mesher p h
  have h0 : p.thread_active = true → p.cmeshes.countP (fun m => m.needsend) = 0 :=
    fun ht => countP_needsend_of_noneReady _ (hinv.1 ht)
  have h1 : p.thread_active = false → p.cmeshes.countP (fun m => m.needsend) = 1 := by
    intro hf
    obtain ⟨i, hi⟩ := hinv.2 hf
    exact countP_needsend_of_onlyReady _ i hi
  refine ⟨⟨h1, fun hc => ?_⟩, ⟨h0, fun hc => ?_⟩, fun hf => ?_, fun ht j m hj => ?_⟩
  · cases ht : p.thread_active with
    | false => rfl
    | true => rw [h0 ht] at hc; cases hc
  · cases ht : p.thread_active with
    | true => rfl
    | false => rw [h1 ht] at hc; cases hc
  · obtain ⟨i, hi⟩ := hinv.2 hf
    have hlt : i < p.cmeshes.length := hi.1
    have hget : p.cmeshes[i]? = some p.cmeshes[i] := List.getElem?_eq_getElem hlt
    have hn : p.cmeshes[i].needsend = true := (hi.2 i _ hget).mpr rfl
    have hmin : ∀ (j : Nat) (mj : cmesh_t), j < i → p.cmeshes[j]? = some mj →
        mj.needsend = false := by
      intro j mj hj hmj
      cases hm : mj.needsend with
      | false => rfl
      | true => exact absurd ((hi.2 j mj hmj).mp hm) (by omega)
    rw [tick_send_found p i _ hf hget hn hmin]
    exact ⟨rfl, i, hlt, rfl⟩
  · simp [hinv.1 ht j m hj]

theorem enable_mirrors_ready_witness :
    PassReachable demo_mesher (thread_build_pass demo_mesher (start_pool demo_cms)) ∧
    ((thread_build_pass demo_mesher (start_pool demo_cms)).thread_active = false ↔
      (thread_build_pass demo_mesher (start_pool demo_cms)).cmeshes.countP
        (fun m => m.needsend) = 1) :=
  ⟨PassReachable.worker (PassReachable.start demo_cms (by decide)),
    (enable_mirrors_ready demo_mesher _
      (PassReachable.worker (PassReachable.start demo_cms (by decide)))).1⟩

/-! ## The full cycle -/

theorem count_build_cycle_calls (j k : Nat) :
    (cycle_calls k).count (Call.build j) = if j < k then 1 else 0 := by
  induction k with
  | zero => simp [cycle_calls]
  | succ k ih =>
    simp only [cycle_calls, List.count_append, ih]
    by_cases h1 : j < k
    · have : k ≠ j := by omega
      simp [h1, List.count_cons, this, Nat.lt_succ_of_lt h1]
    · by_cases h2 : j = k
      · subst h2
        simp [List.count_cons]
      · have h3 : ¬ j < k + 1 := by omega
        have h4 : k ≠ j := fun e => h2 e.symm
        simp [h1, h3, List.count_cons, h4]

theorem count_send_cycle_calls (j k : Nat) :
    (cycle_calls k).count (Call.send j) = if j < k then 1 else 0 := by
  induction k with
  | zero => simp [cycle_calls]
  | succ k ih =>
    simp only [cycle_calls, List.count_append, ih]
    by_cases h1 : j < k
    · have : k ≠ j := by omega
      simp [h1, List.count_cons, this, Nat.lt_succ_of_lt h1]
    · by_cases h2 : j = k
      · subst h2
        simp [List.count_cons]
      · have h3 : ¬ j < k + 1 := by omega
        have h4 : k ≠ j := fun e => h2 e.symm
        simp [h1, h3, List.count_cons, h4]

theorem rounds_form (mesher : List Nat → List Nat) (cms : List cmesh_t)
    (h0 : ∀ m ∈ cms, m.needsend = false ∧ m.chunk.update = true) (k : Nat)
    (hk : k ≤ cms.length) :
    (rounds mesher k (start_pool cms)).thread_active = true ∧
    (∀ j : Nat, (rounds mesher k (start_pool cms)).cmeshes[j]? =
      if j < k then (cms[j]?).map (cycled mesher) else cms[j]?) ∧
    (rounds mesher k (start_pool cms)).calls = cycle_calls k := by
  induction k with
  | zero => exact ⟨rfl, fun j => by simp [rounds, start_pool], rfl⟩
  | succ k ih =>
    obtain ⟨hta, hget, hcalls⟩ := ih (by omega)
    have hlt : k < cms.length := by omega
    have hck : cms[k]? = some cms[k] := List.getElem?_eq_getElem hlt
    have hmem : cms[k] ∈ cms := List.getElem?_mem hck
    have hPk : (rounds mesher k (start_pool cms)).cmeshes[k]? = some cms[k] := by
      rw [hget k]; simp [hck]
    have hPlow : ∀ j : Nat, j < k → ∀ mj : cmesh_t,
        (rounds mesher k (start_pool cms)).cmeshes[j]? = some mj →
        ∃ m0 : cmesh_t, mj = cycled mesher m0 := by
      intro j hj mj hmj
      rw [hget j] at hmj
      simp only [hj, if_true] at hmj
      cases hc : cms[j]? with
      | none => simp [hc] at hmj
      | some m0 => simp [hc] at hmj; exact ⟨m0, hmj.symm⟩
    have hpass := thread_build_pass_found mesher (rounds mesher k (start_pool cms)) k cms[k] hta hPk
      ((wants_build_iff _).mpr ⟨(h0 _ hmem).2, (h0 _ hmem).1⟩)
      (fun j mj hj hmj => by
        obtain ⟨m0, e⟩ := hPlow j hj mj hmj
        subst e
        simp [wants_build, cycled])
    have hPlen : k < (rounds mesher k (start_pool cms)).cmeshes.length :=
      (List.getElem?_eq_some.mp hPk).1
    have htick := tick_send_found (thread_build_pass mesher (rounds mesher k (start_pool cms))) k
      { cms[k] with chunk := { cms[k].chunk with update := false }, needsend := true,
                    verts := mesher cms[k].chunk.voxels }
      (by rw [hpass]) (by rw [hpass]; simp [hPlen]) rfl
      (fun j mj hj hmj => by
        rw [hpass] at hmj
        have hkj : k ≠ j := by omega
        simp only [List.getElem?_set_ne hkj] at hmj
        obtain ⟨m0, e⟩ := hPlow j hj mj hmj
        subst e
        rfl)
    have hround : rounds mesher (k + 1) (start_pool cms) =
        tick_send_cmeshes (thread_build_pass mesher (rounds mesher k (start_pool cms))) := rfl
    rw [hround, htick, hpass]
    refine ⟨rfl, fun j => ?_, by simp [hcalls, cycle_calls]⟩
    by_cases hjk : j = k
    · subst hjk
      simp [hPlen, hck, cycled]
    · have hkj : k ≠ j := fun e => hjk e.symm
      simp only [List.getElem?_set_ne hkj, hget j]
      by_cases hlow : j < k
      · simp [hlow, Nat.lt_succ_of_lt hlow]
      · have : ¬ j < k + 1 := by omega
        simp [hlow, this]

/-- C8. Full-cycle scenario, for every pool size `N = cms.length`. Start with
`thread_active = true`, every `needsend = false` and every `update = true`, and run rounds
of one worker pass followed by one dispatcher tick, with no world mutation. After round
`k ≤ N`, `thread_active` is true again, exactly the slots `0..k-1` have `update == false`,
`needsend == false`, were built once and uploaded once with the built geometry and its
count, and the slots `k..N-1` are untouched and still dirty. After round `N` every slot has
`update == false`, `needsend == false` and an uploaded vertex count equal to the count its
build produced, which is non-zero whenever the builder yields a vertex for the chunk. -/
theorem full_cycle (mesher : List Nat → List Nat) (cms : List cmesh_t)
    (h0 : ∀ m ∈ cms, m.needsend = false ∧ m.chunk.update = true) :
    (∀ k : Nat, k ≤ cms.length →
      (rounds mesher k (start_pool cms)).thread_active = true ∧
      (rounds mesher k (start_pool cms)).cmeshes.length = cms.length ∧
      (∀ (j : Nat) (m : cmesh_t), j < k → cms[j]? = some m →
        ∃ m' : cmesh_t, (rounds mesher k (start_pool cms)).cmeshes[j]? = some m' ∧
          m'.chunk.update = false ∧ m'.needsend = false ∧
          m'.verts = mesher m.chunk.voxels ∧ m'.gpu = mesher m.chunk.voxels ∧
          m'.vertcount = (mesher m.chunk.voxels).length ∧
          (rounds mesher k (start_pool cms)).calls.count (Call.build j) = 1 ∧
          (rounds mesher k (start_pool cms)).calls.count (Call.send j) = 1) ∧
      (∀ (j : Nat) (m : cmesh_t), k ≤ j → cms[j]? = some m →
        (rounds mesher k (start_pool cms)).cmeshes[j]? = some m ∧ m.chunk.update = true ∧
          (rounds mesher k (start_pool cms)).calls.count (Call.build j) = 0 ∧
          (rounds mesher k (start_pool cms)).calls.count (Call.send j) = 0)) ∧
    (rounds mesher cms.length (start_pool cms)).thread_active = true ∧
    (∀ m' ∈ (rounds mesher cms.length (start_pool cms)).cmeshes,
      m'.chunk.update = false ∧ m'.needsend = false) ∧
    (∀ (j : Nat) (m : cmesh_t), cms[j]? = some m →
      ∃ m' : cmesh_t, (rounds mesher cms.length (start_pool cms)).cmeshes[j]? = some m' ∧
        m'.vertcount = (mesher m.chunk.voxels).length ∧
        (mesher m.chunk.voxels ≠ [] → m'.vertcount ≠ 0)) := by
  refine ⟨fun k hk => ?_, (rounds_form mesher cms h0 _ (Nat.le_refl _)).1, ?_, ?_⟩
  · obtain ⟨hta, hget, hcalls⟩ := rounds_form mesher cms h0 k hk
    refine ⟨hta, ?_, ?_, ?_⟩
    · apply Nat.le_antisymm
      · by_contra hc
        have hlt : cms.length < (rounds mesher k (start_pool cms)).cmeshes.length := by omega
        have h1 := List.getElem?_eq_getElem hlt
        rw [hget cms.length] at h1
        have h2 : cms[cms.length]? = none := List.getElem?_eq_none (Nat.le_refl _)
        by_cases hkl : cms.length < k
        · omega
        · simp [hkl, h2] at h1
      · by_contra hc
        have hlt : (rounds mesher k (start_pool cms)).cmeshes.length < cms.length := by omega
        have h1 : (rounds mesher k (start_pool cms)).cmeshes[
            (rounds mesher k (start_pool cms)).cmeshes.length]? = none :=
          List.getElem?_eq_none (Nat.le_refl _)
        rw [hget] at h1
        have h2 := List.getElem?_eq_getElem hlt
        split at h1 <;> simp [h2] at h1
    · intro j m hj hm
      refine ⟨cycled mesher m, by rw [hget j]; simp [hj, hm], rfl, rfl, rfl, rfl, rfl, ?_, ?_⟩
      · rw [hcalls, count_build_cycle_calls]; simp [hj]
      · rw [hcalls, count_send_cycle_calls]; simp [hj]
    · intro j m hj hm
      have hnot : ¬ j < k := by omega
      refine ⟨by rw [hget j]; simp [hnot, hm], (h0 m (List.getElem?_mem hm)).2, ?_, ?_⟩
      · rw [hcalls, count_build_cycle_calls]; simp [hnot]
      · rw [hcalls, count_send_cycle_calls]; simp [hnot]
  · intro m' hm'
    obtain ⟨j, hj⟩ := List.mem_iff_getElem?.mp hm'
    have hget := (rounds_form mesher cms h0 _ (Nat.le_refl _)).2.1 j
    rw [hj] at hget
    cases hc : cms[j]? with
    | none => split at hget <;> simp [hc] at hget
    | some m =>
      have hlt : j < cms.length := (List.getElem?_eq_some.mp hc).1
      simp [hlt, hc] at hget
      subst hget
      exact ⟨rfl, rfl⟩
  · intro j m hm
    have hlt : j < cms.length := (List.getElem?_eq_some.mp hm).1
    have hget := (rounds_form mesher cms h0 _ (Nat.le_refl _)).2.1 j
    refine ⟨cycled mesher m, by rw [hget]; simp [hlt, hm], rfl, fun hne => ?_⟩
    simpa [cycled] using hne

theorem full_cycle_witness :
    (∀ m ∈ demo_cms, m.needsend = false ∧ m.chunk.update = true) ∧
    (rounds demo_mesher 2 (start_pool demo_cms)).thread_active = true ∧
    (∀ m' ∈ (rounds demo_mesher 2 (start_pool demo_cms)).cmeshes,
      m'.chunk.update = false ∧ m'.needsend = false) ∧
    ∃ m' : cmesh_t, (rounds demo_mesher 2 (start_pool demo_cms)).cmeshes[1]? = some m' ∧
      m'.vertcount = 6 :=
  ⟨by decide, (full_cycle demo_mesher demo_cms (by decide)).2.1,
    (full_cycle demo_mesher demo_cms (by decide)).2.2.1,
    by
      obtain ⟨m', h1, h2, _⟩ :=
        (full_cycle demo_mesher demo_cms (by decide)).2.2.2 1 (demo_slot 1) rfl
      exact ⟨m', h1, h2⟩⟩

/-! ## Order of the worker's effects -/

theorem dirty_at_slot (f : cmesh_t → cmesh_t) (i j : Nat) (cms : List cmesh_t)
    (hf : ∀ m : cmesh_t, m.chunk.update = true → (f m).chunk.update = true)
    (h : ∃ m : cmesh_t, cms[i]? = some m ∧ m.chunk.update = true) :
    ∃ m : cmesh_t, (at_slot f j cms)[i]? = some m ∧ m.chunk.update = true := by
  obtain ⟨m, hm, hu⟩ := h
  rw [getElem?_at_slot]
  by_cases hij : i = j
  · subst hij
    exact ⟨f m, by simp [hm], hf m hu⟩
  · exact ⟨m, by simp [hij, hm], hu⟩

theorem dirtyHeld_pool (s : Sys) (f : cmesh_t → cmesh_t) (j : Nat)
    (hf : ∀ m : cmesh_t, m.chunk.update = true → (f m).chunk.update = true)
    (h : DirtyHeld s) (q : Pool) (hq : q.cmeshes = at_slot f j s.pool.cmeshes) :
    DirtyHeld { s with pool := q } := by
  obtain ⟨pool, wpc, dpc⟩ := s
  cases wpc with
  | claim i =>
    show ∃ m : cmesh_t, q.cmeshes[i]? = some m ∧ m.chunk.update = true
    rw [hq]; exact dirty_at_slot f i j _ hf h
  | build i =>
    show ∃ m : cmesh_t, q.cmeshes[i]? = some m ∧ m.chunk.update = true
    rw [hq]; exact dirty_at_slot f i j _ hf h
  | clear i =>
    show ∃ m : cmesh_t, q.cmeshes[i]? = some m ∧ m.chunk.update = true
    rw [hq]; exact dirty_at_slot f i j _ hf h
  | loop => exact trivial
  | guard => exact trivial
  | scan i => exact trivial
  | disable => exact trivial
  | done => exact trivial

theorem dirtyHeld_worker (mesher : List Nat → List Nat) (closed : Bool) (s : Sys)
    (h : DirtyHeld s) : DirtyHeld (worker_step mesher closed s) := by
  obtain ⟨pool, wpc, dpc⟩ := s
  cases wpc with
  | loop => cases closed <;> simp [worker_step, DirtyHeld]
  | guard => cases ht : pool.thread_active <;> simp [worker_step, DirtyHeld, ht]
  | done => simp [worker_step, DirtyHeld]
  | disable => simp [worker_step, DirtyHeld]
  | clear i => simp [worker_step, DirtyHeld]
  | scan i =>
    cases hc : pool.cmeshes[i]? with
    | none => simp [worker_step, DirtyHeld, hc]
    | some m =>
      cases hb : wants_build m with
      | false => simp [worker_step, DirtyHeld, hc, hb]
      | true =>
        have := ((wants_build_iff m).mp hb).1
        simp [worker_step, DirtyHeld, hc, hb, this]
  | claim i =>
    have h : ∃ m : cmesh_t, pool.cmeshes[i]? = some m ∧ m.chunk.update = true := h
    have := dirty_at_slot (fun m => { m with needsend := true }) i i pool.cmeshes
      (fun _ hu => hu) h
    simpa [worker_step, DirtyHeld, stmt_claim] using this
  | build i =>
    have h : ∃ m : cmesh_t, pool.cmeshes[i]? = some m ∧ m.chunk.update = true := h
    have := dirty_at_slot (cmesh_build mesher) i i pool.cmeshes (fun _ hu => hu) h
    simpa [worker_step, DirtyHeld, stmt_build] using this

theorem dirtyHeld_dispatcher (s : Sys) (h : DirtyHeld s) : DirtyHeld (dispatcher_step s) := by
  obtain ⟨pool, wpc, dpc⟩ := s
  cases dpc with
  | idle => cases ht : pool.thread_active <;> simpa [dispatcher_step, ht, DirtyHeld] using h
  | scan i =>
    cases hc : pool.cmeshes[i]? with
    | none => simpa [dispatcher_step, hc, DirtyHeld] using h
    | some m => cases hn : m.needsend <;> simpa [dispatcher_step, hc, hn, DirtyHeld] using h
  | send i =>
    exact dirtyHeld_pool ⟨pool, wpc, .unready i⟩ cmesh_send i (fun _ hu => hu) h _ rfl
  | unready i =>
    exact dirtyHeld_pool ⟨pool, wpc, .enable⟩ (fun m => { m with needsend := false }) i
      (fun _ hu => hu) h _ rfl
  | enable => simpa [dispatcher_step, stmt_enable, DirtyHeld] using h

theorem dirtyHeld_of_reachable (mesher : List Nat → List Nat) (s : Sys)
    (h : Reachable mesher s) : DirtyHeld s := by
  induction h with
  | start cms h0 => simp [DirtyHeld, start_sys]
  | step _ hst ih =>
    cases hst with
    | worker closed _ => exact dirtyHeld_worker mesher closed _ ih
    | dispatcher _ => exact dirtyHeld_dispatcher _ ih
    | world j v _ => exact dirtyHeld_pool _ _ j (fun _ _ => rfl) ih _ rfl

theorem reachable_demo_overwritten : Reachable demo_mesher demo_overwritten :=
  reachable_worker_runs demo_mesher 2 _
    (Reachable.step (reachable_worker_runs demo_mesher 5 _ reachable_demo_start)
      (Step.world 0 [7] _))

theorem reachable_demo_overwritten_early : Reachable demo_mesher demo_overwritten_early :=
  reachable_worker_runs demo_mesher 3 _
    (Reachable.step reachable_demo_building (Step.world 0 [7] _))

theorem reachable_demo_stale : Reachable demo_mesher demo_stale :=
  reachable_worker_runs demo_mesher 5 _
    (reachable_dispatcher_runs demo_mesher 6 _
      (reachable_worker_runs demo_mesher 8 _
        (reachable_dispatcher_runs demo_mesher 5 _ reachable_demo_overwritten)))

/-- C9. The code does not do what the claim says. Failing input: the demo pool of two
dirty slots, and one world mutation of chunk 0 (new voxels `[7]`, `update = true`) that
lands in the worker's build window. (1) When `cmesh_build` on slot 0 is about to start,
the chunk's `update` is still true: line 126 clears it after line 124, not before.
(2) Whether the mutation lands before the build has run or after it, the pass ends with
`update == false`: the chunk is not left dirty. (3) When it lands after the build, the
staging geometry is that of the old voxels `[0, 1]`, and once both threads have run out
of work every flag is clear while slot 0's uploaded geometry is still that of `[0, 1]`
for a chunk holding `[7]`: the change is never meshed. -/
theorem update_cleared_after_build :
    Reachable demo_mesher demo_building ∧ demo_building.wpc = .build 0 ∧
      (demo_building.pool.cmeshes[0]?).map (fun m => m.chunk.update) = some true ∧
    Reachable demo_mesher demo_overwritten_early ∧ demo_overwritten_early.wpc = .loop ∧
      (demo_overwritten_early.pool.cmeshes[0]?).map
        (fun m => (m.chunk.update, m.chunk.voxels, m.verts)) =
          some (false, [7], demo_mesher [7]) ∧
    Reachable demo_mesher demo_overwritten ∧ demo_overwritten.wpc = .loop ∧
      (demo_overwritten.pool.cmeshes[0]?).map
        (fun m => (m.chunk.update, m.chunk.voxels, m.verts)) =
          some (false, [7], demo_mesher [0, 1]) ∧
    Reachable demo_mesher demo_stale ∧ demo_stale.wpc = .loop ∧ demo_stale.dpc = .idle ∧
      demo_stale.pool.thread_active = true ∧
      demo_stale.pool.cmeshes.map (fun m => (m.chunk.update, m.needsend)) =
        [(false, false), (false, false)] ∧
      (demo_stale.pool.cmeshes[0]?).map (fun m => (m.chunk.voxels, m.gpu, m.vertcount)) =
        some ([7], demo_mesher [0, 1], 6) ∧
      demo_mesher [7] ≠ demo_mesher [0, 1] ∧
      demo_stale.pool.calls = [Call.build 0, Call.send 0, Call.build 1, Call.send 1] :=
  ⟨reachable_demo_building, rfl, rfl, reachable_demo_overwritten_early, rfl, rfl,
    reachable_demo_overwritten, rfl, rfl, reachable_demo_stale, rfl, rfl, rfl, rfl, rfl,
    by decide, rfl⟩

/-- What lines 123-127 do in every reachable state, not only in the demo system: when
`cmesh_build` on slot `i` is the next worker statement the slot has `needsend == true` and
its chunk still has `update == true`; the same holds when the build has returned and
line 126 is next; line 126 then stores `false` whatever the chunk's flag and voxels are. -/
theorem build_runs_before_clear (mesher : List Nat → List Nat) (s : Sys)
    (h : Reachable mesher s) (i : Nat) (closed : Bool) :
    (s.wpc = .claim i → (worker_step mesher closed s).wpc = .build i) ∧
    (s.wpc = .build i →
      (∃ m : cmesh_t, s.pool.cmeshes[i]? = some m ∧ m.needsend = true ∧ m.chunk.update = true) ∧
      (worker_step mesher closed s).wpc = .clear i ∧
      (worker_step mesher closed s).pool.calls = s.pool.calls ++ [Call.build i]) ∧
    (s.wpc = .clear i →
      (∃ m : cmesh_t, s.pool.cmeshes[i]? = some m ∧ m.needsend = true ∧ m.chunk.update = true) ∧
      (worker_step mesher closed s).wpc = .disable ∧
      (∃ m' : cmesh_t, (worker_step mesher closed s).pool.cmeshes[i]? = some m' ∧
        m'.chunk.update = false)) ∧
    (s.wpc = .disable →
      (worker_step mesher closed s).wpc = .loop ∧
      (worker_step mesher closed s).pool.thread_active = false) := by
  have hinv := handoffInv_of_reachable mesher s h
  have hdirty := dirtyHeld_of_reachable mesher s h
  have hready : ∀ k : Nat, (s.wpc = .build k ∨ s.wpc = .clear k) →
      ∀ m : cmesh_t, s.pool.cmeshes[k]? = some m → m.needsend = true := by
    intro k hk m hm
    cases ht : s.pool.thread_active with
    | false =>
      rcases (hinv.2 ht).1 with e | e | e <;> rw [e] at hk <;> simp at hk
    | true =>
      have hv := (hinv.1 ht).2
      rcases hk with e | e <;> rw [e] at hv <;> exact (hv.2 k m hm).mpr rfl
  refine ⟨fun hw => by simp [worker_step, hw], fun hw => ⟨?_, ?_, ?_⟩,
    fun hw => ⟨?_, ?_, ?_⟩, fun hw => by simp [worker_step, hw, stmt_disable]⟩
  · unfold DirtyHeld at hdirty
    simp only [hw] at hdirty
    obtain ⟨m, hm, hu⟩ := hdirty
    exact ⟨m, hm, hready i (Or.inl hw) m hm, hu⟩
  · simp [worker_step, hw]
  · simp [worker_step, hw, stmt_build]
  · unfold DirtyHeld at hdirty
    simp only [hw] at hdirty
    obtain ⟨m, hm, hu⟩ := hdirty
    exact ⟨m, hm, hready i (Or.inr hw) m hm, hu⟩
  · simp [worker_step, hw]
  · unfold DirtyHeld at hdirty
    simp only [hw] at hdirty
    obtain ⟨m, hm, _⟩ := hdirty
    refine ⟨{ m with chunk := { m.chunk with update := false } }, ?_, rfl⟩
    simp [worker_step, hw, stmt_clear, getElem?_at_slot, hm]

/-! ## Registries -/

theorem addmesh_calls_spec (n : Nat) (r : Registry) :
    (addmesh_calls n r).1.length = n ∧
    (∀ k : Nat, k < n → (addmesh_calls n r).1[k]? =
      some (if r.mesh_count + k < MAX_MESHES then some (r.mesh_count + k) else none)) ∧
    (addmesh_calls n r).2.mesh_count =
      (if r.mesh_count ≥ MAX_MESHES then r.mesh_count else min (r.mesh_count + n) MAX_MESHES) ∧
    (addmesh_calls n r).2.meshes = r.meshes ∧
    (addmesh_calls n r).2.lights = r.lights ∧
    (addmesh_calls n r).2.light_count = r.light_count := by
  induction n generalizing r with
  | zero =>
    refine ⟨rfl, fun k hk => by omega, ?_, rfl, rfl, rfl⟩
    simp only [addmesh_calls]
    split <;> omega
  | succ n ih =>
    obtain ⟨h1, h2, h3, h4, h5, h6⟩ := ih (render_addmesh r).2
    simp only [addmesh_calls]
    by_cases hfull : r.mesh_count ≥ MAX_MESHES
    · have hr : render_addmesh r = (none, r) := by simp [render_addmesh, hfull]
      rw [hr] at h1 h2 h3 h4 h5 h6 ⊢
      refine ⟨by simp [h1], fun k hk => ?_, ?_, h4, h5, h6⟩
      · cases k with
        | zero =>
          have : ¬ r.mesh_count < MAX_MESHES := by omega
          simp [this]
        | succ k =>
          have hk2 := h2 k (by omega)
          have a1 : ¬ r.mesh_count + k < MAX_MESHES := by omega
          have a2 : ¬ r.mesh_count + (k + 1) < MAX_MESHES := by omega
          simp only [a1, if_false] at hk2
          simp [hk2, a2]
      · simp only [hfull, if_true] at h3 ⊢
        exact h3
    · have hr : render_addmesh r =
          (some r.mesh_count, { r with mesh_count := r.mesh_count + 1 }) := by
        simp [render_addmesh, hfull]
      rw [hr] at h1 h2 h3 h4 h5 h6 ⊢
      simp only at h1 h2 h3 h4 h5 h6 ⊢
      refine ⟨by simp [h1], fun k hk => ?_, ?_, h4, h5, h6⟩
      · cases k with
        | zero =>
          have : r.mesh_count < MAX_MESHES := by omega
          simp [this]
        | succ k =>
          have hk2 := h2 k (by omega)
          have e : r.mesh_count + 1 + k = r.mesh_count + (k + 1) := by omega
          rw [e] at hk2
          simp [hk2]
      · rw [h3]
        simp only [hfull, if_false]
        unfold MAX_MESHES at *
        split <;> omega

theorem getElem?_set_light_pos (i j : Nat) (v : vec4) (ls : List light_t) :
    (set_light_pos i v ls)[j]? =
      if j = i then (ls[j]?).map (fun l => { l with pos := v }) else ls[j]? := by
  unfold set_light_pos
  cases h : ls[i]? with
  | none =>
    by_cases hji : j = i
    · subst hji; simp [h]
    · simp [hji]
  | some l =>
    by_cases hji : j = i
    · subst hji
      have hlt : j < ls.length := (List.getElem?_eq_some.mp h).1
      simp [h, hlt]
    · have hij : i ≠ j := fun e => hji e.symm
      simp [hji, List.getElem?_set_ne hij]

theorem add_light_calls_spec (vec_to_vec4 : vec → vec4) (ps : List vec) (r : Registry) :
    (add_light_calls vec_to_vec4 ps r).1.length = ps.length ∧
    (∀ k : Nat, k < ps.length → (add_light_calls vec_to_vec4 ps r).1[k]? =
      some (if r.light_count + k < MAX_LIGHTS then some (r.light_count + k) else none)) ∧
    (add_light_calls vec_to_vec4 ps r).2.light_count =
      (if r.light_count ≥ MAX_LIGHTS then r.light_count
        else min (r.light_count + ps.length) MAX_LIGHTS) ∧
    (∀ j : Nat, j < r.light_count →
      (add_light_calls vec_to_vec4 ps r).2.lights[j]? = r.lights[j]?) ∧
    (add_light_calls vec_to_vec4 ps r).2.meshes = r.meshes ∧
    (add_light_calls vec_to_vec4 ps r).2.mesh_count = r.mesh_count := by
  induction ps generalizing r with
  | nil =>
    refine ⟨rfl, fun k hk => by simp at hk, ?_, fun _ _ => rfl, rfl, rfl⟩
    simp only [add_light_calls, List.length_nil]
    split <;> omega
  | cons pos rest ih =>
    obtain ⟨h1, h2, h3, h4, h5, h6⟩ := ih (render_add_light vec_to_vec4 pos r).2
    simp only [add_light_calls, List.length_cons]
    by_cases hfull : r.light_count ≥ MAX_LIGHTS
    · have hr : render_add_light vec_to_vec4 pos r = (none, r) := by
        simp [render_add_light, hfull]
      rw [hr] at h1 h2 h3 h4 h5 h6 ⊢
      refine ⟨by simp [h1], fun k hk => ?_, ?_, h4, h5, h6⟩
      · cases k with
        | zero =>
          have : ¬ r.light_count < MAX_LIGHTS := by omega
          simp [this]
        | succ k =>
          have hk2 := h2 k (by omega)
          have a1 : ¬ r.light_count + k < MAX_LIGHTS := by omega
          have a2 : ¬ r.light_count + (k + 1) < MAX_LIGHTS := by omega
          simp only [a1, if_false] at hk2
          simp [hk2, a2]
      · simp only [hfull, if_true] at h3 ⊢
        exact h3
    · have hr : render_add_light vec_to_vec4 pos r =
          (some r.light_count,
            { r with lights := set_light_pos r.light_count (vec_to_vec4 pos) r.lights,
                     light_count := r.light_count + 1 }) := by
        simp [render_add_light, hfull]
      rw [hr] at h1 h2 h3 h4 h5 h6 ⊢
      simp only at h1 h2 h3 h4 h5 h6 ⊢
      refine ⟨by simp [h1], fun k hk => ?_, ?_, fun j hj => ?_, h5, h6⟩
      · cases k with
        | zero =>
          have : r.light_count < MAX_LIGHTS := by omega
          simp [this]
        | succ k =>
          have hk2 := h2 k (by omega)
          have e : r.light_count + 1 + k = r.light_count + (k + 1) := by omega
          rw [e] at hk2
          simp [hk2]
      · rw [h3]
        simp only [hfull, if_false]
        unfold MAX_LIGHTS at *
        split <;> omega
      · rw [h4 j (by omega), getElem?_set_light_pos]
        have : j ≠ r.light_count := by omega
        simp [this]

/-- C6. Capacity exhaustion. Starting from `mesh_count = 0`, in any number `n` of calls of
`render_addmesh` the call number `k + 1` returns `&meshes[k]` when `k < MAX_MESHES` (so the
handles are pairwise distinct) and `NULL` otherwise, `mesh_count` ends at `min n MAX_MESHES`
and no entry of `meshes` is changed; a call at or past the limit returns `NULL` and leaves
the whole registry unchanged. Likewise for `render_add_light` with `MAX_LIGHTS`: a
successful call returns `&lights[light_count]`, writes only the `pos` of that entry and
increments `light_count`; a call at or past the limit returns `NULL` and changes nothing. -/
theorem capacity_exhaustion (vec_to_vec4 : vec → vec4) (r : Registry) (pos : vec) :
    (r.mesh_count = 0 → ∀ n : Nat,
      (addmesh_calls n r).1.length = n ∧
      (∀ k : Nat, k < n → (addmesh_calls n r).1[k]? =
        some (if k < MAX_MESHES then some k else none)) ∧
      (∀ a b : Nat, a < b → b < n → b < MAX_MESHES →
        (addmesh_calls n r).1[a]? ≠ (addmesh_calls n r).1[b]?) ∧
      (addmesh_calls n r).2.mesh_count = min n MAX_MESHES ∧
      (addmesh_calls n r).2.meshes = r.meshes) ∧
    (MAX_MESHES ≤ r.mesh_count → render_addmesh r = (none, r)) ∧
    (r.mesh_count < MAX_MESHES →
      render_addmesh r = (some r.mesh_count, { r with mesh_count := r.mesh_count + 1 })) ∧
    (r.light_count = 0 → ∀ ps : List vec,
      (add_light_calls vec_to_vec4 ps r).1.length = ps.length ∧
      (∀ k : Nat, k < ps.length → (add_light_calls vec_to_vec4 ps r).1[k]? =
        some (if k < MAX_LIGHTS then some k else none)) ∧
      (add_light_calls vec_to_vec4 ps r).2.light_count = min ps.length MAX_LIGHTS) ∧
    (r.light_count < MAX_LIGHTS →
      (render_add_light vec_to_vec4 pos r).1 = some r.light_count ∧
      (render_add_light vec_to_vec4 pos r).2.light_count = r.light_count + 1 ∧
      (∀ j : Nat, j ≠ r.light_count →
        (render_add_light vec_to_vec4 pos r).2.lights[j]? = r.lights[j]?) ∧
      (render_add_light vec_to_vec4 pos r).2.lights[r.light_count]? =
        (r.lights[r.light_count]?).map (fun l => { l with pos := vec_to_vec4 pos }) ∧
      (render_add_light vec_to_vec4 pos r).2.meshes = r.meshes ∧
      (render_add_light vec_to_vec4 pos r).2.mesh_count = r.mesh_count) ∧
    (MAX_LIGHTS ≤ r.light_count → render_add_light vec_to_vec4 pos r = (none, r)) := by
  refine ⟨fun h0 n => ?_, fun hfull => ?_, fun hfree => ?_, fun h0 ps => ?_, fun hfree => ?_,
    fun hfull => ?_⟩
  · obtain ⟨h1, h2, h3, h4, _, _⟩ := addmesh_calls_spec n r
    have hres : ∀ k : Nat, k < n → (addmesh_calls n r).1[k]? =
        some (if k < MAX_MESHES then some k else none) := by
      intro k hk
      have := h2 k hk
      simpa [h0] using this
    refine ⟨h1, hres, fun a b hab hbn hb => ?_, ?_, h4⟩
    · rw [hres a (by omega), hres b hbn]
      have ha : a < MAX_MESHES := by omega
      simp only [ha, hb, if_true]
      intro e
      have := Option.some.inj (Option.some.inj e)
      omega
    · rw [h3, h0]
      simp [MAX_MESHES]
  · have : r.mesh_count ≥ MAX_MESHES := hfull
    simp [render_addmesh, this]
  · have : ¬ r.mesh_count ≥ MAX_MESHES := by omega
    simp [render_addmesh, this]
  · obtain ⟨h1, h2, h3, _, _, _⟩ := add_light_calls_spec vec_to_vec4 ps r
    refine ⟨h1, fun k hk => ?_, ?_⟩
    · have := h2 k hk
      simpa [h0] using this
    · rw [h3, h0]
      simp [MAX_LIGHTS]
  · have hn : ¬ r.light_count ≥ MAX_LIGHTS := by omega
    have hr : render_add_light vec_to_vec4 pos r =
        (some r.light_count,
          { r with lights := set_light_pos r.light_count (vec_to_vec4 pos) r.lights,
                   light_count := r.light_count + 1 }) := by
      simp [render_add_light, hn]
    rw [hr]
    refine ⟨rfl, rfl, fun j hj => ?_, ?_, rfl, rfl⟩
    · simp [getElem?_set_light_pos, hj]
    · simp [getElem?_set_light_pos]
  · have : r.light_count ≥ MAX_LIGHTS := hfull
    simp [render_add_light, this]

theorem capacity_exhaustion_witness :
    ((addmesh_calls 22 demo_registry).1[19]? = some (some 19) ∧
      (addmesh_calls 22 demo_registry).1[20]? = some none ∧
      (addmesh_calls 22 demo_registry).2.mesh_count = 20 ∧
      (addmesh_calls 22 demo_registry).2.meshes = demo_registry.meshes) ∧
    render_addmesh { demo_registry with mesh_count := 20 } =
      (none, { demo_registry with mesh_count := 20 }) ∧
    (render_add_light demo_vec_to_vec4 ⟨1, 2, 3⟩ { demo_registry with light_count := 9 }).1 =
      some 9 ∧
    render_add_light demo_vec_to_vec4 ⟨1, 2, 3⟩ { demo_registry with light_count := 10 } =
      (none, { demo_registry with light_count := 10 }) :=
  ⟨⟨((capacity_exhaustion demo_vec_to_vec4 demo_registry ⟨0, 0, 0⟩).1 rfl 22).2.1 19 (by omega),
    ((capacity_exhaustion demo_vec_to_vec4 demo_registry ⟨0, 0, 0⟩).1 rfl 22).2.1 20 (by omega),
    ((capacity_exhaustion demo_vec_to_vec4 demo_registry ⟨0, 0, 0⟩).1 rfl 22).2.2.2.1,
    ((capacity_exhaustion demo_vec_to_vec4 demo_registry ⟨0, 0, 0⟩).1 rfl 22).2.2.2.2⟩,
   (capacity_exhaustion demo_vec_to_vec4 { demo_registry with mesh_count := 20 }
      ⟨0, 0, 0⟩).2.1 (by decide),
   ((capacity_exhaustion demo_vec_to_vec4 { demo_registry with light_count := 9 }
      ⟨1, 2, 3⟩).2.2.2.2.1 (by decide)).1,
   (capacity_exhaustion demo_vec_to_vec4 { demo_registry with light_count := 10 }
      ⟨1, 2, 3⟩).2.2.2.2.2 (by decide)⟩

end Vkt
